import Mathlib

/-!
Shallow embedding of the core allocation and synthesis routines of
`src/northd/ovn-northd.c` (the OVN northbound-to-southbound translator),
together with proofs and refutations of the specification claims about
them.

Conventions used throughout:
* C machine integers become `Nat`; wherever overflow or masking matters
  the corresponding `% 2^w` / `&&&` operations appear explicitly.
* OVS `hmap` containers keyed by full-value equality become Lean `List`s
  (an `hmap` is a multiset: `hmap_insert` never deduplicates).
* The process-wide `macam` hash set is modelled by its membership
  predicate `Nat → Bool` so that exhaustion states are expressible.
* C `for` loops whose exit is data dependent are written as structural
  recursion on an explicit fuel that dominates the iteration count of
  the C loop; each such definition documents the bound.
-/

namespace OvnNorthd

/-! ## Tunnel-id allocator (`allocate_tnlid`, ovn-northd.c lines 306-348)

`tnlid_in_use` walks the hash bucket comparing stored ids; the hmap is
modelled as the list of inserted ids.  `add_tnlid` is `hmap_insert`. -/

def tnlid_in_use (tnlids : List Nat) (tnlid : Nat) : Bool :=
  tnlids.contains tnlid

def add_tnlid (tnlids : List Nat) (tnlid : Nat) : List Nat :=
  tnlid :: tnlids

/-- `next_tnlid` from the source: `tnlid + 1 <= max ? tnlid + 1 : min`. -/
def next_tnlid (tnlid mn mx : Nat) : Nat :=
  if tnlid + 1 ≤ mx then tnlid + 1 else mn

/-- The `for` loop of `allocate_tnlid`: starting from the given probe,
keep stepping with `next_tnlid` until either a free id is found (`some`)
or the probe returns to `*hint` (`none`, the exhaustion exit).  The C
loop terminates only by those two conditions; when the hint is outside
`[mn, mx]` and every id is in use the C loop never terminates, which the
fuel models by also answering `none` after a full sweep. -/
def allocate_tnlid_loop (tnlids : List Nat) (hint mn mx : Nat) :
    Nat → Nat → Option Nat
  | _, 0 => none
  | tnlid, fuel + 1 =>
    if tnlid = hint then none
    else if tnlid_in_use tnlids tnlid then
      allocate_tnlid_loop tnlids hint mn mx (next_tnlid tnlid mn mx) fuel
    else some tnlid

/-- Allocator state: the in-use set and the hint cursor. -/
structure TnlAlloc where
  tnlids : List Nat
  hint : Nat
  deriving DecidableEq, Repr

/-- `allocate_tnlid(set, name, min, max, hint)`.  On success the id is
inserted into the set and the hint advances; on exhaustion the function
logs a rate-limited warning and returns 0 leaving the state unchanged.
The fuel `mx + 2 - mn` covers one full wrap-around sweep of `[mn, mx]`
plus one extra probe, which dominates the C loop whenever the loop
terminates. -/
def allocate_tnlid (a : TnlAlloc) (mn mx : Nat) : Nat × TnlAlloc :=
  match allocate_tnlid_loop a.tnlids a.hint mn mx
      (next_tnlid a.hint mn mx) (mx + 2 - mn) with
  | some tnlid => (tnlid, ⟨add_tnlid a.tnlids tnlid, tnlid⟩)
  | none => (0, a)

/-- The ids the loop probes, in probe order, when `mn ≤ hint ≤ mx`:
first `hint+1 .. mx`, then `mn .. hint-1`.  The hint itself is never
probed. -/
def tnlid_probes (hint mn mx : Nat) : List Nat :=
  List.range' (hint + 1) (mx - hint) ++ List.range' mn (hint - mn)

theorem mem_tnlid_probes {hint mn mx t : Nat} (h1 : mn ≤ hint) (h2 : hint ≤ mx) :
    t ∈ tnlid_probes hint mn mx ↔ (mn ≤ t ∧ t ≤ mx ∧ t ≠ hint) := by
  unfold tnlid_probes
  simp only [List.mem_append, List.mem_range']
  constructor
  · rintro (⟨i, hi, rfl⟩ | ⟨i, hi, rfl⟩) <;> omega
  · rintro ⟨ha, hb, hc⟩
    rcases Nat.lt_or_ge t hint with h | h
    · exact Or.inr ⟨t - mn, by omega⟩
    · exact Or.inl ⟨t - (hint + 1), by omega⟩

/-- Ascending segment of the loop: while the probe stays strictly above
the hint, the loop inspects `t, t+1, …, mx` in order and then wraps to
`mn`. -/
theorem allocate_tnlid_loop_asc (tnlids : List Nat) (hint mn mx : Nat)
    (hhint : hint < mx) :
    ∀ k t fuel, hint < t → t + (k + 1) = mx + 1 → k + 1 ≤ fuel →
      allocate_tnlid_loop tnlids hint mn mx t fuel =
        match (List.range' t (k + 1)).find? (fun x => ! tnlid_in_use tnlids x) with
        | some r => some r
        | none => allocate_tnlid_loop tnlids hint mn mx mn (fuel - (k + 1)) := by
  intro k
  induction k with
  | zero =>
    intro t fuel ht hk hfuel
    obtain ⟨fuel, rfl⟩ : ∃ f, fuel = f + 1 := ⟨fuel - 1, by omega⟩
    have hne : t ≠ hint := by omega
    have hnext : next_tnlid t mn mx = mn := by
      unfold next_tnlid
      rw [if_neg (by omega)]
    have hfe : fuel + 1 - (0 + 1) = fuel := by omega
    by_cases hiu : tnlid_in_use tnlids t
    · rw [List.range'_one, List.find?_cons_of_neg _ (by simp [hiu]), List.find?_nil,
        hfe]
      simp [allocate_tnlid_loop, hne, hiu, hnext]
    · rw [List.range'_one, List.find?_cons_of_pos _ (by simp [hiu])]
      simp [allocate_tnlid_loop, hne, hiu]
  | succ k ih =>
    intro t fuel ht hk hfuel
    obtain ⟨fuel, rfl⟩ : ∃ f, fuel = f + 1 := ⟨fuel - 1, by omega⟩
    have hne : t ≠ hint := by omega
    have hnext : next_tnlid t mn mx = t + 1 := by
      unfold next_tnlid
      rw [if_pos (by omega)]
    by_cases hiu : tnlid_in_use tnlids t
    · have h1 : allocate_tnlid_loop tnlids hint mn mx t (fuel + 1) =
          allocate_tnlid_loop tnlids hint mn mx (t + 1) fuel := by
        simp [allocate_tnlid_loop, hne, hiu, hnext]
      rw [List.range'_succ, h1, ih (t + 1) fuel (by omega) (by omega) (by omega),
        List.find?_cons_of_neg _ (by simp [hiu])]
      have hfe : fuel - (k + 1) = fuel + 1 - (k + 1 + 1) := by omega
      rw [hfe]
    · rw [List.range'_succ, List.find?_cons_of_pos _ (by simp [hiu])]
      simp [allocate_tnlid_loop, hne, hiu]

/-- Lower segment of the loop: walking up from `t` with `t ≤ hint ≤ mx`,
the loop inspects `t, …, hint-1` and stops at the hint with `none`. -/
theorem allocate_tnlid_loop_low (tnlids : List Nat) (hint mn mx : Nat)
    (hhx : hint ≤ mx) :
    ∀ k t fuel, t + k = hint → k + 1 ≤ fuel →
      allocate_tnlid_loop tnlids hint mn mx t fuel =
        (List.range' t k).find? (fun x => ! tnlid_in_use tnlids x) := by
  intro k
  induction k with
  | zero =>
    intro t fuel ht hfuel
    obtain ⟨fuel, rfl⟩ : ∃ f, fuel = f + 1 := ⟨fuel - 1, by omega⟩
    have : t = hint := by omega
    subst this
    simp [allocate_tnlid_loop]
  | succ k ih =>
    intro t fuel ht hfuel
    obtain ⟨fuel, rfl⟩ : ∃ f, fuel = f + 1 := ⟨fuel - 1, by omega⟩
    have hne : t ≠ hint := by omega
    have hnext : next_tnlid t mn mx = t + 1 := by
      unfold next_tnlid
      rw [if_pos (by omega)]
    by_cases hiu : tnlid_in_use tnlids t
    · have h1 : allocate_tnlid_loop tnlids hint mn mx t (fuel + 1) =
          allocate_tnlid_loop tnlids hint mn mx (t + 1) fuel := by
        simp [allocate_tnlid_loop, hne, hiu, hnext]
      rw [List.range'_succ, h1, List.find?_cons_of_neg _ (by simp [hiu])]
      exact ih (t + 1) fuel (by omega) (by omega)
    · rw [List.range'_succ, List.find?_cons_of_pos _ (by simp [hiu])]
      simp [allocate_tnlid_loop, hne, hiu]

/-- The loop as a whole equals a linear search over `tnlid_probes`. -/
theorem allocate_tnlid_loop_eq_find (tnlids : List Nat) (hint mn mx : Nat)
    (h1 : mn ≤ hint) (h2 : hint ≤ mx) :
    allocate_tnlid_loop tnlids hint mn mx (next_tnlid hint mn mx) (mx + 2 - mn) =
      (tnlid_probes hint mn mx).find? (fun x => ! tnlid_in_use tnlids x) := by
  unfold tnlid_probes
  rcases Nat.lt_or_ge hint mx with hlt | hge
  · have hnext : next_tnlid hint mn mx = hint + 1 := by
      unfold next_tnlid
      rw [if_pos (by omega)]
    rw [hnext]
    have hseg : hint + 1 + (mx - hint - 1 + 1) = mx + 1 := by omega
    rw [allocate_tnlid_loop_asc tnlids hint mn mx hlt (mx - hint - 1) (hint + 1)
        (mx + 2 - mn) (by omega) hseg (by omega)]
    have hk : mx - hint - 1 + 1 = mx - hint := by omega
    rw [hk]
    rw [List.find?_append]
    cases hfind : (List.range' (hint + 1) (mx - hint)).find?
        (fun x => ! tnlid_in_use tnlids x) with
    | some r => rfl
    | none =>
      simp only [Option.none_or]
      exact allocate_tnlid_loop_low tnlids hint mn mx h2 (hint - mn) mn
        (mx + 2 - mn - (mx - hint)) (by omega) (by omega)
  · have hnext : next_tnlid hint mn mx = mn := by
      unfold next_tnlid
      rw [if_neg (by omega)]
    have h0 : mx - hint = 0 := by omega
    rw [hnext, h0]
    simp only [List.range'_zero, List.nil_append]
    exact allocate_tnlid_loop_low tnlids hint mn mx h2 (hint - mn) mn
      (mx + 2 - mn) (by omega) (by omega)

/-- C4 (counterexample): the claim "whenever at least one id in
[min, max] is free, a nonzero free id is returned" fails: with
range [1, 3], in-use set {1, 3} and hint 2, the id 2 is free and in
range, yet the allocator returns 0, because the loop never probes the
hint value itself. -/
theorem allocate_tnlid_hint_never_probed :
    ((1:Nat) ≤ 2 ∧ (2:Nat) ≤ 3 ∧ tnlid_in_use [1, 3] 2 = false) ∧
    (allocate_tnlid ⟨[1, 3], 2⟩ 1 3).1 = 0 := by decide

/-- C4 (amended): `allocate(set, hint*, min, max)` starts at
`next(hint)`, scans forward with wrap-around and returns the first id
not in the set among `[min, max] \ {hint}`, inserts it and advances the
hint; it returns 0 exactly when every id in `[min, max]` other than the
hint itself is in use — the hint value is never probed, so a free hint
with everything else in use still yields 0. -/
theorem allocate_tnlid_spec (tnlids : List Nat) (hint mn mx : Nat)
    (h0 : 0 < mn) (h1 : mn ≤ hint) (h2 : hint ≤ mx) :
    (allocate_tnlid ⟨tnlids, hint⟩ mn mx).1 =
        (((tnlid_probes hint mn mx).find?
            (fun x => ! tnlid_in_use tnlids x)).getD 0) ∧
    ((allocate_tnlid ⟨tnlids, hint⟩ mn mx).1 ≠ 0 →
        mn ≤ (allocate_tnlid ⟨tnlids, hint⟩ mn mx).1 ∧
        (allocate_tnlid ⟨tnlids, hint⟩ mn mx).1 ≤ mx ∧
        (allocate_tnlid ⟨tnlids, hint⟩ mn mx).1 ≠ hint ∧
        tnlid_in_use tnlids (allocate_tnlid ⟨tnlids, hint⟩ mn mx).1 = false ∧
        (allocate_tnlid ⟨tnlids, hint⟩ mn mx).2 =
          ⟨add_tnlid tnlids (allocate_tnlid ⟨tnlids, hint⟩ mn mx).1,
           (allocate_tnlid ⟨tnlids, hint⟩ mn mx).1⟩) ∧
    ((∃ t, mn ≤ t ∧ t ≤ mx ∧ t ≠ hint ∧ tnlid_in_use tnlids t = false) →
        (allocate_tnlid ⟨tnlids, hint⟩ mn mx).1 ≠ 0) ∧
    ((allocate_tnlid ⟨tnlids, hint⟩ mn mx).1 = 0 →
        (allocate_tnlid ⟨tnlids, hint⟩ mn mx).2 = ⟨tnlids, hint⟩ ∧
        ∀ t, mn ≤ t → t ≤ mx → t ≠ hint → tnlid_in_use tnlids t = true) := by
  have key := allocate_tnlid_loop_eq_find tnlids hint mn mx h1 h2
  cases hf : (tnlid_probes hint mn mx).find? (fun x => ! tnlid_in_use tnlids x) with
  | some t =>
    have hres : allocate_tnlid ⟨tnlids, hint⟩ mn mx = (t, ⟨add_tnlid tnlids t, t⟩) := by
      unfold allocate_tnlid
      rw [key, hf]
    have hmem := List.mem_of_find?_eq_some hf
    have hpred := List.find?_some hf
    have hfree : tnlid_in_use tnlids t = false := by
      cases h : tnlid_in_use tnlids t
      · rfl
      · rw [h] at hpred
        simp at hpred
    have hbounds := (mem_tnlid_probes h1 h2).mp hmem
    have hT : t ≠ 0 := by omega
    rw [hres]
    exact ⟨rfl, fun _ => ⟨hbounds.1, hbounds.2.1, hbounds.2.2, hfree, rfl⟩,
      fun _ => hT, fun h => absurd h hT⟩
  | none =>
    have hres : allocate_tnlid ⟨tnlids, hint⟩ mn mx = (0, ⟨tnlids, hint⟩) := by
      unfold allocate_tnlid
      rw [key, hf]
    have hall : ∀ t, mn ≤ t → t ≤ mx → t ≠ hint → tnlid_in_use tnlids t = true := by
      intro t ha hb hc
      have := List.find?_eq_none.mp hf t ((mem_tnlid_probes h1 h2).mpr ⟨ha, hb, hc⟩)
      cases h : tnlid_in_use tnlids t
      · rw [h] at this
        simp at this
      · rfl
    rw [hres]
    refine ⟨rfl, fun h => absurd rfl h, ?_, fun _ => ⟨rfl, hall⟩⟩
    rintro ⟨t, ha, hb, hc, hd⟩
    rw [hall t ha hb hc] at hd
    exact Bool.noConfusion hd

/-- Witness: the amended C4 theorem applied at a concrete input. -/
theorem allocate_tnlid_spec_witness :
    (allocate_tnlid ⟨[2, 3], 2⟩ 1 4).1 =
        (((tnlid_probes 2 1 4).find?
            (fun x => ! tnlid_in_use [2, 3] x)).getD 0) ∧
    ((allocate_tnlid ⟨[2, 3], 2⟩ 1 4).1 ≠ 0 →
        1 ≤ (allocate_tnlid ⟨[2, 3], 2⟩ 1 4).1 ∧
        (allocate_tnlid ⟨[2, 3], 2⟩ 1 4).1 ≤ 4 ∧
        (allocate_tnlid ⟨[2, 3], 2⟩ 1 4).1 ≠ 2 ∧
        tnlid_in_use [2, 3] (allocate_tnlid ⟨[2, 3], 2⟩ 1 4).1 = false ∧
        (allocate_tnlid ⟨[2, 3], 2⟩ 1 4).2 =
          ⟨add_tnlid [2, 3] (allocate_tnlid ⟨[2, 3], 2⟩ 1 4).1,
           (allocate_tnlid ⟨[2, 3], 2⟩ 1 4).1⟩) ∧
    ((∃ t, 1 ≤ t ∧ t ≤ 4 ∧ t ≠ 2 ∧ tnlid_in_use [2, 3] t = false) →
        (allocate_tnlid ⟨[2, 3], 2⟩ 1 4).1 ≠ 0) ∧
    ((allocate_tnlid ⟨[2, 3], 2⟩ 1 4).1 = 0 →
        (allocate_tnlid ⟨[2, 3], 2⟩ 1 4).2 = ⟨[2, 3], 2⟩ ∧
        ∀ t, 1 ≤ t → t ≤ 4 → t ≠ 2 → tnlid_in_use [2, 3] t = true) :=
  allocate_tnlid_spec [2, 3] 2 1 4 (by decide) (by decide) (by decide)

/-! ## IPAM IPv4 bitmap
(`init_ipam_info_for_datapath` lines 697-786, `ipam_insert_ip` lines
1253-1271, `ipam_get_unused_ip` lines 1374-1390,
`update_dynamic_addresses` lines 1657-1725 of ovn-northd.c)

The per-switch bitmap is a `List Bool` of `total_ipv4s` bits; bit `i`
covers address `start_ipv4 + i`.  `List.getD i true` models a bitmap
read (reads past the end never happen in the C caller; defaulting them
to "taken" keeps the model total). -/

/-- OVS `bitmap_scan(b, 0, st, st+k)` specialised to target bit 0, the
only form `ipam_get_unused_ip` uses: index of the first clear bit in
`[st, st+k)`, or `st+k` when all those bits are set. -/
def bitmap_scan0_from (b : List Bool) : Nat → Nat → Nat
  | st, 0 => st
  | st, k + 1 => if b.getD st true then bitmap_scan0_from b (st + 1) k else st

def bitmap_scan0 (b : List Bool) (st fin : Nat) : Nat :=
  bitmap_scan0_from b st (fin - st)

def bitmap_set1 (b : List Bool) (i : Nat) : List Bool := b.set i true

def bitmap_set_multiple (b : List Bool) : Nat → Nat → List Bool
  | _, 0 => b
  | st, k + 1 => bitmap_set_multiple (bitmap_set1 b st) (st + 1) k

/-- The fields of `struct ipam_info` the IPv4 allocator touches.
`allocated_ipv4s = none` models a switch without a parsed `subnet`. -/
structure IpamInfo where
  start_ipv4 : Nat
  total_ipv4s : Nat
  allocated_ipv4s : Option (List Bool)
  deriving DecidableEq, Repr

/-- `init_ipam_info_for_datapath` after `subnet` parses to a CIDR that
is not /32: `start_ipv4 = ntohl(subnet) + 1`,
`total_ipv4s = ~ntohl(mask)`, fresh bitmap with index 0 pre-marked, and
each parsed `exclude_ips` token (a half-open range `[fst, snd)`; a
single address parses as `[a, a+1)`) clamped to the subnet and marked.
The string lexing itself is elided; ranges that miss the subnet only
raise a lexer error in C and mark nothing. -/
def init_ipam_info (start_ipv4 total_ipv4s : Nat)
    (excludes : List (Nat × Nat)) : IpamInfo :=
  let b0 := bitmap_set1 (List.replicate total_ipv4s false) 0
  let b := excludes.foldl (fun b se =>
    let s := max start_ipv4 se.1
    let e := min (start_ipv4 + total_ipv4s) se.2
    if s < e then bitmap_set_multiple b (s - start_ipv4) (e - s) else b) b0
  ⟨start_ipv4, total_ipv4s, some b⟩

def ipam_insert_ip (info : IpamInfo) (ip : Nat) : IpamInfo :=
  match info.allocated_ipv4s with
  | none => info
  | some b =>
    if info.start_ipv4 ≤ ip ∧ ip < info.start_ipv4 + info.total_ipv4s then
      { info with allocated_ipv4s := some (bitmap_set1 b (ip - info.start_ipv4)) }
    else info

def ipam_get_unused_ip (info : IpamInfo) : Nat :=
  match info.allocated_ipv4s with
  | none => 0
  | some b =>
    let new_ip_index := bitmap_scan0 b 0 (info.total_ipv4s - 1)
    if new_ip_index = info.total_ipv4s - 1 then 0
    else info.start_ipv4 + new_ip_index

/-- The IPv4-DYNAMIC arm of `update_dynamic_addresses`: allocate, and
when the result is nonzero claim it with `ipam_insert_ip`. -/
def update_dynamic_ip4 (info : IpamInfo) : Nat × IpamInfo :=
  let ip4 := ipam_get_unused_ip info
  if ip4 ≠ 0 then (ip4, ipam_insert_ip info ip4) else (ip4, info)

/-- `build_ipam`'s ordered update pass restricted to the IPv4-DYNAMIC
updates of one switch: `n` queued ports each receive one allocation. -/
def run_dynamic_updates (info : IpamInfo) : Nat → List Nat × IpamInfo
  | 0 => ([], info)
  | n + 1 =>
    let r := update_dynamic_ip4 info
    let rest := run_dynamic_updates r.2 n
    (r.1 :: rest.1, rest.2)

theorem getD_set_self : ∀ (b : List Bool) (i : Nat),
    (b.set i true).getD i true = true := by
  intro b
  induction b with
  | nil => intro i; rfl
  | cons x xs ih =>
    intro i
    cases i with
    | zero => rfl
    | succ j => exact ih j

theorem getD_set_other : ∀ (b : List Bool) (i j : Nat), i ≠ j →
    (b.set i true).getD j true = b.getD j true := by
  intro b
  induction b with
  | nil => intro i j _; rfl
  | cons x xs ih =>
    intro i j hne
    cases i with
    | zero =>
      cases j with
      | zero => exact absurd rfl hne
      | succ j => rfl
    | succ i =>
      cases j with
      | zero => rfl
      | succ j => exact ih i j (by omega)

theorem getD_set_mono {b : List Bool} {i j : Nat}
    (h : b.getD j true = true) : (b.set i true).getD j true = true := by
  by_cases hij : i = j
  · subst hij; exact getD_set_self b i
  · rw [getD_set_other b i j hij]; exact h

theorem bitmap_set_multiple_mono :
    ∀ (c st : Nat) (b : List Bool) (j : Nat), b.getD j true = true →
      (bitmap_set_multiple b st c).getD j true = true := by
  intro c
  induction c with
  | zero => intro st b j h; exact h
  | succ k ih =>
    intro st b j h
    exact ih (st + 1) (bitmap_set1 b st) j (getD_set_mono h)

theorem bitmap_set_multiple_covers :
    ∀ (c st : Nat) (b : List Bool) (j : Nat), st ≤ j → j < st + c →
      (bitmap_set_multiple b st c).getD j true = true := by
  intro c
  induction c with
  | zero => intro st b j h1 h2; omega
  | succ k ih =>
    intro st b j h1 h2
    by_cases hj : j = st
    · subst hj
      exact bitmap_set_multiple_mono k (j + 1) _ j (getD_set_self b j)
    · exact ih (st + 1) (bitmap_set1 b st) j (by omega) (by omega)

/-- `bitmap_scan0_from` soundness: the result is the least clear index
in the window, or the right end of the window. -/
theorem bitmap_scan0_from_spec (b : List Bool) :
    ∀ (k st : Nat),
      st ≤ bitmap_scan0_from b st k ∧
      bitmap_scan0_from b st k ≤ st + k ∧
      (bitmap_scan0_from b st k < st + k →
        b.getD (bitmap_scan0_from b st k) true = false) ∧
      (∀ j, st ≤ j → j < bitmap_scan0_from b st k → b.getD j true = true) := by
  intro k
  induction k with
  | zero =>
    intro st
    have h : bitmap_scan0_from b st 0 = st := rfl
    rw [h]
    exact ⟨le_refl st, by omega, by omega, fun j h1 h2 => by omega⟩
  | succ k ih =>
    intro st
    by_cases hb : b.getD st true
    · have hs : bitmap_scan0_from b st (k + 1) = bitmap_scan0_from b (st + 1) k := by
        simp only [bitmap_scan0_from]
        rw [if_pos hb]
      rw [hs]
      obtain ⟨ha, hb2, hc, hd⟩ := ih (st + 1)
      refine ⟨by omega, by omega, fun h => hc (by omega), ?_⟩
      intro j h1 h2
      by_cases hj : j = st
      · subst hj; exact hb
      · exact hd j (by omega) h2
    · have hs : bitmap_scan0_from b st (k + 1) = st := by
        simp only [bitmap_scan0_from]
        rw [if_neg hb]
      rw [hs]
      refine ⟨le_refl st, by omega, fun _ => ?_, fun j h1 h2 => by omega⟩
      cases h : b.getD st true
      · rfl
      · exact absurd h hb

/-- Bitmap read through the `ipam_info`: `true` means the address is
taken (a missing bitmap reads as taken; the C allocator refuses such
switches anyway). -/
def ipam_bit (info : IpamInfo) (i : Nat) : Bool :=
  match info.allocated_ipv4s with
  | none => true
  | some b => b.getD i true

/-- The state facts preserved across one switch's update pass. -/
def ipam_shape (start total : Nat) (info : IpamInfo) : Prop :=
  info.start_ipv4 = start ∧ info.total_ipv4s = total ∧
  info.allocated_ipv4s.isSome = true

/-- `ipam_get_unused_ip` soundness over the underlying bitmap. -/
theorem ipam_get_unused_ip_spec (info : IpamInfo) (b : List Bool)
    (hb : info.allocated_ipv4s = some b) :
    (ipam_get_unused_ip info ≠ 0 →
      info.start_ipv4 ≤ ipam_get_unused_ip info ∧
      ipam_get_unused_ip info - info.start_ipv4 < info.total_ipv4s - 1 ∧
      b.getD (ipam_get_unused_ip info - info.start_ipv4) true = false ∧
      ∀ j, j < ipam_get_unused_ip info - info.start_ipv4 →
        b.getD j true = true) ∧
    ((∀ i, i < info.total_ipv4s - 1 → b.getD i true = true) →
      ipam_get_unused_ip info = 0) := by
  have hun : ipam_get_unused_ip info =
      (if bitmap_scan0 b 0 (info.total_ipv4s - 1) = info.total_ipv4s - 1 then 0
       else info.start_ipv4 + bitmap_scan0 b 0 (info.total_ipv4s - 1)) := by
    unfold ipam_get_unused_ip
    rw [hb]
  obtain ⟨ha, hble, hc, hd⟩ := bitmap_scan0_from_spec b (info.total_ipv4s - 1 - 0) 0
  have hscan : bitmap_scan0 b 0 (info.total_ipv4s - 1) =
      bitmap_scan0_from b 0 (info.total_ipv4s - 1 - 0) := rfl
  by_cases hend : bitmap_scan0 b 0 (info.total_ipv4s - 1) = info.total_ipv4s - 1
  · rw [hun, if_pos hend]
    exact ⟨fun h => absurd rfl h, fun _ => rfl⟩
  · rw [hun, if_neg hend]
    rw [hscan] at hend
    constructor
    · intro _
      have hidx : info.start_ipv4 + bitmap_scan0_from b 0 (info.total_ipv4s - 1 - 0)
          - info.start_ipv4 = bitmap_scan0_from b 0 (info.total_ipv4s - 1 - 0) := by
        omega
      rw [hscan, hidx]
      refine ⟨by omega, by omega, hc (by omega), fun j hj => hd j (by omega) hj⟩
    · intro hall
      have := hc (by omega)
      have h2 := hall (bitmap_scan0_from b 0 (info.total_ipv4s - 1 - 0)) (by omega)
      rw [this] at h2
      exact Bool.noConfusion h2

/-- One IPv4-DYNAMIC update step: the shape is preserved, taken bits
stay taken, and a nonzero result names a previously free in-range index
that the step then marks. -/
theorem update_dynamic_ip4_step (start total : Nat) (info : IpamInfo)
    (h : ipam_shape start total info) :
    ipam_shape start total (update_dynamic_ip4 info).2 ∧
    (∀ i, ipam_bit info i = true → ipam_bit (update_dynamic_ip4 info).2 i = true) ∧
    ((update_dynamic_ip4 info).1 ≠ 0 →
      start ≤ (update_dynamic_ip4 info).1 ∧
      (update_dynamic_ip4 info).1 - start < total - 1 ∧
      ipam_bit info ((update_dynamic_ip4 info).1 - start) = false ∧
      ipam_bit (update_dynamic_ip4 info).2 ((update_dynamic_ip4 info).1 - start)
        = true) := by
  obtain ⟨hs, ht, hsome⟩ := h
  obtain ⟨b, hb⟩ := Option.isSome_iff_exists.mp hsome
  obtain ⟨hget, _⟩ := ipam_get_unused_ip_spec info b hb
  by_cases hz : ipam_get_unused_ip info = 0
  · have hr : update_dynamic_ip4 info = (0, info) := by
      unfold update_dynamic_ip4
      rw [hz]
      simp
    rw [hr]
    exact ⟨⟨hs, ht, hsome⟩, fun i hi => hi, fun h => absurd rfl h⟩
  · obtain ⟨hp1, hp2, hp3, _⟩ := hget hz
    have hins : ipam_insert_ip info (ipam_get_unused_ip info) =
        { info with allocated_ipv4s := some (bitmap_set1 b (ipam_get_unused_ip info - info.start_ipv4)) } := by
      unfold ipam_insert_ip
      rw [hb]
      dsimp only
      rw [if_pos ⟨hp1, by omega⟩]
    have hr : update_dynamic_ip4 info =
        (ipam_get_unused_ip info, ipam_insert_ip info (ipam_get_unused_ip info)) := by
      unfold update_dynamic_ip4
      rw [if_pos hz]
    rw [hr, hins]
    refine ⟨⟨hs, ht, rfl⟩, ?_, ?_⟩
    · intro i hi
      have hbit : ipam_bit info i = b.getD i true := by
        unfold ipam_bit
        rw [hb]
      rw [hbit] at hi
      show (bitmap_set1 b (ipam_get_unused_ip info - info.start_ipv4)).getD i true
        = true
      exact getD_set_mono hi
    · intro _
      have hbit : ipam_bit info (ipam_get_unused_ip info - start) =
          b.getD (ipam_get_unused_ip info - start) true := by
        unfold ipam_bit
        rw [hb]
      refine ⟨by omega, by omega, ?_, ?_⟩
      · rw [hbit, ← hs]
        exact hp3
      · show (bitmap_set1 b (ipam_get_unused_ip info - info.start_ipv4)).getD
          (ipam_get_unused_ip info - start) true = true
        rw [← hs]
        exact getD_set_self b _

/-- The whole ordered update pass of one switch: shape preserved, taken
bits monotone, every nonzero allocation was free beforehand and is
marked afterwards, and nonzero allocations are pairwise distinct. -/
theorem run_dynamic_updates_spec (start total : Nat) :
    ∀ (n : Nat) (info : IpamInfo), ipam_shape start total info →
      ipam_shape start total (run_dynamic_updates info n).2 ∧
      (∀ i, ipam_bit info i = true →
        ipam_bit (run_dynamic_updates info n).2 i = true) ∧
      (∀ ip, ip ∈ (run_dynamic_updates info n).1 → ip ≠ 0 →
        start ≤ ip ∧ ip - start < total - 1 ∧
        ipam_bit info (ip - start) = false ∧
        ipam_bit (run_dynamic_updates info n).2 (ip - start) = true) ∧
      (run_dynamic_updates info n).1.Pairwise
        (fun a c => a ≠ 0 → c ≠ 0 → a ≠ c) := by
  intro n
  induction n with
  | zero =>
    intro info h
    exact ⟨h, fun i hi => hi, fun ip hip => absurd hip (List.not_mem_nil ip),
      List.Pairwise.nil⟩
  | succ n ih =>
    intro info h
    obtain ⟨hsh, hmono, hres⟩ := update_dynamic_ip4_step start total info h
    obtain ⟨ihs, ihmono, ihmem, ihpw⟩ := ih (update_dynamic_ip4 info).2 hsh
    have hrw : run_dynamic_updates info (n + 1) =
        ((update_dynamic_ip4 info).1 ::
          (run_dynamic_updates (update_dynamic_ip4 info).2 n).1,
         (run_dynamic_updates (update_dynamic_ip4 info).2 n).2) := rfl
    rw [hrw]
    refine ⟨ihs, fun i hi => ihmono i (hmono i hi), ?_, ?_⟩
    · intro ip hip hnz
      rcases List.mem_cons.mp hip with hhd | htl
      · subst hhd
        obtain ⟨hq1, hq2, hq3, hq4⟩ := hres hnz
        exact ⟨hq1, hq2, hq3, ihmono _ hq4⟩
      · obtain ⟨hq1, hq2, hq3, hq4⟩ := ihmem ip htl hnz
        refine ⟨hq1, hq2, ?_, hq4⟩
        cases hcur : ipam_bit info (ip - start)
        · rfl
        · rw [hmono _ hcur] at hq3
          exact Bool.noConfusion hq3
    · refine List.Pairwise.cons ?_ ihpw
      intro c hc hhz hcz
      obtain ⟨hq1, hq2, hq3, hq4⟩ := hres hhz
      obtain ⟨hc1, hc2, hc3, _⟩ := ihmem c hc hcz
      intro heq
      rw [heq] at hq4
      rw [hq4] at hc3
      exact Bool.noConfusion hc3

/-- The folded `exclude_ips` marking only ever sets bits. -/
theorem init_excl_fold_mono (start total : Nat) :
    ∀ (l : List (Nat × Nat)) (b : List Bool) (j : Nat), b.getD j true = true →
      (l.foldl (fun b se =>
          let s := max start se.1
          let e := min (start + total) se.2
          if s < e then bitmap_set_multiple b (s - start) (e - s) else b) b).getD
        j true = true := by
  intro l
  induction l with
  | nil => intro b j hj; exact hj
  | cons se rest ih =>
    intro b j hj
    simp only [List.foldl_cons]
    by_cases hse : max start se.1 < min (start + total) se.2
    · rw [if_pos hse]
      exact ih _ j (bitmap_set_multiple_mono _ _ b j hj)
    · rw [if_neg hse]
      exact ih b j hj

theorem init_ipam_bit_zero (start total : Nat) (ex : List (Nat × Nat)) :
    ipam_bit (init_ipam_info start total ex) 0 = true := by
  unfold ipam_bit init_ipam_info
  exact init_excl_fold_mono start total ex _ 0 (getD_set_self _ 0)

/-- Any excluded range reached by the fold marks all of its clamped
addresses, whatever the accumulator was before it. -/
theorem foldl_excl_covers (start total : Nat) :
    ∀ (l : List (Nat × Nat)) (b : List Bool) (se : Nat × Nat), se ∈ l →
      ∀ ip, max start se.1 ≤ ip → ip < min (start + total) se.2 →
        (l.foldl (fun b se =>
            let s := max start se.1
            let e := min (start + total) se.2
            if s < e then bitmap_set_multiple b (s - start) (e - s) else b)
          b).getD (ip - start) true = true := by
  intro l
  induction l with
  | nil => intro b se hse; exact absurd hse (List.not_mem_nil se)
  | cons hd rest ih =>
    intro b se hse ip h1 h2
    rcases List.mem_cons.mp hse with hhd | htl
    · subst hhd
      simp only [List.foldl_cons]
      rw [if_pos (by omega)]
      refine init_excl_fold_mono start total rest _ _ ?_
      refine bitmap_set_multiple_covers _ _ _ _ (by omega) ?_
      have hs : start ≤ max start se.1 := le_max_left _ _
      omega
    · simp only [List.foldl_cons]
      by_cases hc : max start hd.1 < min (start + total) hd.2
      · rw [if_pos hc]
        exact ih _ se htl ip h1 h2
      · rw [if_neg hc]
        exact ih b se htl ip h1 h2

/-- Every excluded address inside the subnet is marked by
`init_ipam_info_for_datapath`. -/
theorem init_ipam_bit_excluded (start total : Nat) (ex : List (Nat × Nat))
    (se : Nat × Nat) (hse : se ∈ ex) (ip : Nat)
    (h1 : max start se.1 ≤ ip) (h2 : ip < min (start + total) se.2) :
    ipam_bit (init_ipam_info start total ex) (ip - start) = true := by
  unfold ipam_bit init_ipam_info
  exact foldl_excl_covers start total ex _ se hse ip h1 h2

theorem init_ipam_shape (start total : Nat) (ex : List (Nat × Nat)) :
    ipam_shape start total (init_ipam_info start total ex) :=
  ⟨rfl, rfl, rfl⟩

/-- C10: the ascending bitmap scan of `ipam_get_unused_ip` is bounded
at index `total_ipv4s - 1`, which is treated as exhaustion, so with
index 0 pre-marked a nonzero result satisfies
`start_ipv4 + 1 <= ip < start_ipv4 + total_ipv4s - 1` (the broadcast
address is never dynamically allocated), and 0 is returned when all
lower bits are set. -/
theorem ipam_get_unused_ip_skips_broadcast (info : IpamInfo) (b : List Bool)
    (hb : info.allocated_ipv4s = some b) (h0 : b.getD 0 true = true) :
    (ipam_get_unused_ip info ≠ 0 →
      info.start_ipv4 + 1 ≤ ipam_get_unused_ip info ∧
      ipam_get_unused_ip info < info.start_ipv4 + info.total_ipv4s - 1) ∧
    ((∀ i, i < info.total_ipv4s - 1 → b.getD i true = true) →
      ipam_get_unused_ip info = 0) := by
  obtain ⟨hfst, hsnd⟩ := ipam_get_unused_ip_spec info b hb
  refine ⟨?_, hsnd⟩
  intro hnz
  obtain ⟨hp1, hp2, hp3, hp4⟩ := hfst hnz
  have hidx : ipam_get_unused_ip info - info.start_ipv4 ≠ 0 := by
    intro h
    rw [h, h0] at hp3
    exact Bool.noConfusion hp3
  omega

/-- Witness for C10 at a concrete bitmap. -/
theorem ipam_get_unused_ip_skips_broadcast_witness :
    ((⟨100, 4, some [true, false, false, false]⟩ : IpamInfo).allocated_ipv4s
        = some [true, false, false, false] ∧
      ([true, false, false, false] : List Bool).getD 0 true = true) ∧
    ((ipam_get_unused_ip ⟨100, 4, some [true, false, false, false]⟩ ≠ 0 →
      100 + 1 ≤ ipam_get_unused_ip ⟨100, 4, some [true, false, false, false]⟩ ∧
      ipam_get_unused_ip ⟨100, 4, some [true, false, false, false]⟩
        < 100 + 4 - 1) ∧
    ((∀ i, i < 4 - 1 → ([true, false, false, false] : List Bool).getD i true
        = true) →
      ipam_get_unused_ip ⟨100, 4, some [true, false, false, false]⟩ = 0)) :=
  ⟨⟨rfl, rfl⟩, ipam_get_unused_ip_skips_broadcast
    ⟨100, 4, some [true, false, false, false]⟩
    [true, false, false, false] rfl rfl⟩

/-- C5: within one pass, every dynamically allocated IPv4 of a switch
lies strictly inside the subnet host range (above the reserved first
address, below the broadcast address), avoids every `exclude_ips` range
(index 0 is pre-marked), and no two dynamic updates of the switch
receive the same address. -/
theorem ipam_dynamic_ipv4_sound (start total n : Nat) (ex : List (Nat × Nat))
    (ip : Nat)
    (hmem : ip ∈ (run_dynamic_updates (init_ipam_info start total ex) n).1)
    (hnz : ip ≠ 0) :
    (start < ip ∧ ip < start + total - 1) ∧
    (∀ se, se ∈ ex → ¬ (se.1 ≤ ip ∧ ip < se.2)) ∧
    (run_dynamic_updates (init_ipam_info start total ex) n).1.Pairwise
      (fun a c => a ≠ 0 → c ≠ 0 → a ≠ c) := by
  obtain ⟨_, _, hmemspec, hpw⟩ :=
    run_dynamic_updates_spec start total n (init_ipam_info start total ex)
      (init_ipam_shape start total ex)
  obtain ⟨hq1, hq2, hq3, _⟩ := hmemspec ip hmem hnz
  have hlow : ip - start ≠ 0 := by
    intro h
    rw [h, init_ipam_bit_zero start total ex] at hq3
    exact Bool.noConfusion hq3
  refine ⟨by omega, ?_, hpw⟩
  intro se hse hrange
  have hcov := init_ipam_bit_excluded start total ex se hse ip
    (by omega) (by omega)
  rw [hcov] at hq3
  exact Bool.noConfusion hq3

/-- Witness for C5: subnet 10.0.0.0/29 modelled as `start = 10`,
`total = 8`, one excluded range, two dynamic ports; the first allocated
address is 11. -/
theorem ipam_dynamic_ipv4_sound_witness :
    ((11 : Nat) ∈ (run_dynamic_updates (init_ipam_info 10 8 [(12, 14)]) 2).1 ∧
      (11 : Nat) ≠ 0) ∧
    (((10 : Nat) < 11 ∧ (11 : Nat) < 10 + 8 - 1) ∧
    (∀ se, se ∈ [((12 : Nat), (14 : Nat))] → ¬ (se.1 ≤ 11 ∧ 11 < se.2)) ∧
    (run_dynamic_updates (init_ipam_info 10 8 [(12, 14)]) 2).1.Pairwise
      (fun a c => a ≠ 0 → c ≠ 0 → a ≠ c)) :=
  ⟨⟨by decide, by decide⟩,
    ipam_dynamic_ipv4_sound 10 8 2 [(12, 14)] 11 (by decide) (by decide)⟩

/-! ## MACAM (`ipam_get_unused_mac` lines 1348-1372, `ipam_insert_mac`
lines 1229-1250 of ovn-northd.c)

MAC addresses are 48-bit `Nat`s.  The process-wide prefix (`mac_prefix`
in the source, `pfx` here because of its startup handling at lines
9596-9619) always has its low 3 bytes zero.  The `macam` hmap of
tracked MACs appears as its membership predicate, and
`ipam_is_duplicate_mac` is exactly that membership test (it walks the
bucket comparing full addresses). -/

def MAC_ADDR_SPACE : Nat := 0xffffff

def ipam_is_duplicate_mac (macam : Nat → Bool) (mac64 : Nat) : Bool :=
  macam mac64

/-- `ipam_insert_mac`: a MAC enters the macam only when its top 24 bits
equal the process prefix; with `check` set a duplicate is not
re-inserted (it only warns). -/
def ipam_insert_mac (macam : Nat → Bool) (pfx mac64 : Nat)
    (check : Bool) : Nat → Bool :=
  if ((mac64 ^^^ pfx) >>> 24) ≠ 0 then macam
  else if check && ipam_is_duplicate_mac macam mac64 then macam
  else fun m => if m = mac64 then true else macam m

/-- One tentative MAC of the probe loop:
`mac64 = eth_addr_to_uint64(mac_prefix) | (((base_addr + i) % (MAC_ADDR_SPACE - 1)) + 1)`. -/
def mac_probe (pfx base i : Nat) : Nat :=
  pfx ||| ((base + i) % (MAC_ADDR_SPACE - 1) + 1)

/-- The probe loop of `ipam_get_unused_mac`:
`for (i = 0; i < MAC_ADDR_SPACE - 1; i++)` breaking on the first
non-duplicate.  Returns the final `(i, mac64)` pair; when the loop runs
to completion, `i = MAC_ADDR_SPACE - 1` and `mac64` still holds the
last (duplicate) probe.  The fuel only bounds recursion; callers pass
`MAC_ADDR_SPACE`, which dominates the loop count, so the fuel-exhausted
base case (shaped like a normal loop exit) is never reached. -/
def mac_probe_loop (macam : Nat → Bool) (pfx base : Nat) :
    Nat → Nat → Nat × Nat
  | i, 0 =>
    if ipam_is_duplicate_mac macam (mac_probe pfx base i) then
      (i + 1, mac_probe pfx base i)
    else (i, mac_probe pfx base i)
  | i, fuel + 1 =>
    if ipam_is_duplicate_mac macam (mac_probe pfx base i) then
      (if i + 1 < MAC_ADDR_SPACE - 1 then mac_probe_loop macam pfx base (i + 1) fuel
       else (i + 1, mac_probe pfx base i))
    else (i, mac_probe pfx base i)

/-- `ipam_get_unused_mac(ip)`: probe starting from the low 24 bits of
the hint address.  The final test `if (i == MAC_ADDR_SPACE)` is the
exhaustion exit of the source. -/
def ipam_get_unused_mac (macam : Nat → Bool) (pfx ip : Nat) : Nat :=
  let base_addr := ip &&& MAC_ADDR_SPACE
  let r := mac_probe_loop macam pfx base_addr 0 MAC_ADDR_SPACE
  if r.1 = MAC_ADDR_SPACE then 0 else r.2

/-- The loop's final counter never exceeds `MAC_ADDR_SPACE - 1`. -/
theorem mac_probe_loop_counter_le (macam : Nat → Bool) (pfx base : Nat) :
    ∀ (fuel i : Nat), i < MAC_ADDR_SPACE - 1 →
      (mac_probe_loop macam pfx base i fuel).1 ≤ MAC_ADDR_SPACE - 1 := by
  intro fuel
  induction fuel with
  | zero =>
    intro i hi
    unfold mac_probe_loop
    by_cases hd : ipam_is_duplicate_mac macam (mac_probe pfx base i)
    · rw [if_pos hd]; omega
    · rw [if_neg hd]; omega
  | succ fuel ih =>
    intro i hi
    unfold mac_probe_loop
    by_cases hd : ipam_is_duplicate_mac macam (mac_probe pfx base i)
    · rw [if_pos hd]
      by_cases hlt : i + 1 < MAC_ADDR_SPACE - 1
      · rw [if_pos hlt]; exact ih (i + 1) hlt
      · rw [if_neg hlt]; omega
    · rw [if_neg hd]; omega

/-- The loop's result is always one of the probes. -/
theorem mac_probe_loop_result_is_probe (macam : Nat → Bool) (pfx base : Nat) :
    ∀ (fuel i : Nat), ∃ j,
      (mac_probe_loop macam pfx base i fuel).2 = mac_probe pfx base j := by
  intro fuel
  induction fuel with
  | zero =>
    intro i
    unfold mac_probe_loop
    by_cases hd : ipam_is_duplicate_mac macam (mac_probe pfx base i)
    · rw [if_pos hd]; exact ⟨i, rfl⟩
    · rw [if_neg hd]; exact ⟨i, rfl⟩
  | succ fuel ih =>
    intro i
    unfold mac_probe_loop
    by_cases hd : ipam_is_duplicate_mac macam (mac_probe pfx base i)
    · rw [if_pos hd]
      by_cases hlt : i + 1 < MAC_ADDR_SPACE - 1
      · rw [if_pos hlt]; exact ih (i + 1)
      · rw [if_neg hlt]; exact ⟨i, rfl⟩
    · rw [if_neg hd]; exact ⟨i, rfl⟩

/-- When every managed MAC is already tracked, the loop runs to
completion: the counter ends at `MAC_ADDR_SPACE - 1` (not at
`MAC_ADDR_SPACE`) and the last probe is kept. -/
theorem mac_probe_loop_exhausted (macam : Nat → Bool) (pfx base : Nat)
    (hall : ∀ m, macam m = true) :
    ∀ (fuel i : Nat), i < MAC_ADDR_SPACE - 1 →
      MAC_ADDR_SPACE - 1 - (i + 1) ≤ fuel →
      mac_probe_loop macam pfx base i fuel =
        (MAC_ADDR_SPACE - 1, mac_probe pfx base (MAC_ADDR_SPACE - 2)) := by
  intro fuel
  induction fuel with
  | zero =>
    intro i hi hf
    have hieq : i = MAC_ADDR_SPACE - 2 := by
      unfold MAC_ADDR_SPACE at hi hf ⊢
      omega
    unfold mac_probe_loop
    have hd : ipam_is_duplicate_mac macam (mac_probe pfx base i) = true := hall _
    rw [if_pos hd, hieq]
    have : MAC_ADDR_SPACE - 2 + 1 = MAC_ADDR_SPACE - 1 := by
      unfold MAC_ADDR_SPACE
      omega
    rw [this]
  | succ fuel ih =>
    intro i hi hf
    unfold mac_probe_loop
    have hd : ipam_is_duplicate_mac macam (mac_probe pfx base i) = true := hall _
    rw [if_pos hd]
    by_cases hlt : i + 1 < MAC_ADDR_SPACE - 1
    · rw [if_pos hlt]
      exact ih (i + 1) hlt (by omega)
    · rw [if_neg hlt]
      have hieq : i = MAC_ADDR_SPACE - 2 := by
        unfold MAC_ADDR_SPACE at hi hlt ⊢
        omega
      rw [hieq]
      have : MAC_ADDR_SPACE - 2 + 1 = MAC_ADDR_SPACE - 1 := by
        unfold MAC_ADDR_SPACE
        omega
      rw [this]

/-- C2: the exhaustion branch is dead code.  With the macam containing
every MAC (membership constantly true), prefix 0 and hint ip 0, the
loop runs to completion with `i == MAC_ADDR_SPACE - 1`; the test
`if (i == MAC_ADDR_SPACE)` therefore never fires and the function
returns the last probed, still-duplicate MAC `0xfffffe` instead of the
0 the specification (and the adjacent "MAC address space exhausted"
warning) promise. -/
theorem ipam_get_unused_mac_exhaustion_returns_nonzero :
    ipam_get_unused_mac (fun _ => true) 0 0 = 0xfffffe ∧ (0xfffffe : Nat) ≠ 0 := by
  constructor
  · unfold ipam_get_unused_mac
    have hb : (0 : Nat) &&& MAC_ADDR_SPACE = 0 := by decide
    simp only [hb]
    rw [mac_probe_loop_exhausted (fun _ => true) 0 0 (fun _ => rfl)
      MAC_ADDR_SPACE 0 (by unfold MAC_ADDR_SPACE; omega)
      (by unfold MAC_ADDR_SPACE; omega)]
    have hne : MAC_ADDR_SPACE - 1 ≠ MAC_ADDR_SPACE := by
      unfold MAC_ADDR_SPACE
      omega
    rw [if_neg hne]
    decide
  · decide

theorem lor_shiftRight_24 (pfx s : Nat) (hs : s < 2 ^ 24) :
    (pfx ||| s) >>> 24 = pfx >>> 24 := by
  apply Nat.eq_of_testBit_eq
  intro i
  rw [Nat.testBit_shiftRight, Nat.testBit_shiftRight, Nat.testBit_lor]
  have hsb : s.testBit (24 + i) = false :=
    Nat.testBit_lt_two_pow
      (lt_of_lt_of_le hs (Nat.pow_le_pow_right (by omega) (by omega)))
  rw [hsb, Bool.or_false]

theorem lor_mod_two_pow_24 (pfx s : Nat) (hp : pfx % 2 ^ 24 = 0)
    (hs : s < 2 ^ 24) : (pfx ||| s) % 2 ^ 24 = s := by
  apply Nat.eq_of_testBit_eq
  intro i
  rw [Nat.testBit_mod_two_pow, Nat.testBit_lor]
  by_cases hi : i < 24
  · have hpb : pfx.testBit i = false := by
      have h : (pfx % 2 ^ 24).testBit i = (decide (i < 24) && pfx.testBit i) :=
        Nat.testBit_mod_two_pow ..
      rw [hp] at h
      simp [hi] at h
      exact h
    simp [hi, hpb]
  · have hsb : s.testBit i = false :=
      Nat.testBit_lt_two_pow
        (lt_of_lt_of_le hs (Nat.pow_le_pow_right (by omega) (by omega)))
    simp [hi, hsb]

/-- C6 (amended): because the loop counter never reaches
`MAC_ADDR_SPACE`, `ipam_get_unused_mac` always returns one of its
probes `mac_prefix | suffix`; given the startup invariant that the
prefix's low 24 bits are zero, the result's top 24 bits equal the
process prefix and its 24-bit suffix lies in the closed interval
`[1, 2^24 - 2]` (the suffix can be exactly 1 or exactly 2^24 - 2, so
the claimed open interval is amended to the closed one). -/
theorem ipam_get_unused_mac_prefix_and_suffix (macam : Nat → Bool)
    (pfx ip : Nat) (hp : pfx % 2 ^ 24 = 0) :
    (ipam_get_unused_mac macam pfx ip) >>> 24 = pfx >>> 24 ∧
    1 ≤ (ipam_get_unused_mac macam pfx ip) % 2 ^ 24 ∧
    (ipam_get_unused_mac macam pfx ip) % 2 ^ 24 ≤ 2 ^ 24 - 2 := by
  have hc := mac_probe_loop_counter_le macam pfx (ip &&& MAC_ADDR_SPACE)
    MAC_ADDR_SPACE 0 (by unfold MAC_ADDR_SPACE; omega)
  obtain ⟨j, hj⟩ := mac_probe_loop_result_is_probe macam pfx
    (ip &&& MAC_ADDR_SPACE) MAC_ADDR_SPACE 0
  have hred : ipam_get_unused_mac macam pfx ip =
      (if (mac_probe_loop macam pfx (ip &&& MAC_ADDR_SPACE) 0 MAC_ADDR_SPACE).1
          = MAC_ADDR_SPACE then 0
       else (mac_probe_loop macam pfx (ip &&& MAC_ADDR_SPACE) 0 MAC_ADDR_SPACE).2) :=
    rfl
  have hne : (mac_probe_loop macam pfx (ip &&& MAC_ADDR_SPACE) 0 MAC_ADDR_SPACE).1
      ≠ MAC_ADDR_SPACE := by
    unfold MAC_ADDR_SPACE at hc ⊢
    omega
  rw [hred, if_neg hne, hj]
  have hsuf : 1 ≤ ((ip &&& MAC_ADDR_SPACE) + j) % (MAC_ADDR_SPACE - 1) + 1 ∧
      ((ip &&& MAC_ADDR_SPACE) + j) % (MAC_ADDR_SPACE - 1) + 1 ≤ MAC_ADDR_SPACE - 1 := by
    have := Nat.mod_lt ((ip &&& MAC_ADDR_SPACE) + j)
      (show 0 < MAC_ADDR_SPACE - 1 by unfold MAC_ADDR_SPACE; omega)
    omega
  have hslt : ((ip &&& MAC_ADDR_SPACE) + j) % (MAC_ADDR_SPACE - 1) + 1 < 2 ^ 24 := by
    unfold MAC_ADDR_SPACE at hsuf ⊢
    omega
  unfold mac_probe
  rw [lor_shiftRight_24 pfx _ hslt, lor_mod_two_pow_24 pfx _ hp hslt]
  refine ⟨rfl, hsuf.1, ?_⟩
  unfold MAC_ADDR_SPACE at hsuf ⊢
  omega

/-- Witness for the amended C6 theorem at a concrete prefix and empty
macam. -/
theorem ipam_get_unused_mac_prefix_and_suffix_witness :
    (0xaabbcc000000 : Nat) % 2 ^ 24 = 0 ∧
    ((ipam_get_unused_mac (fun _ => false) 0xaabbcc000000 0) >>> 24
        = (0xaabbcc000000 : Nat) >>> 24 ∧
      1 ≤ (ipam_get_unused_mac (fun _ => false) 0xaabbcc000000 0) % 2 ^ 24 ∧
      (ipam_get_unused_mac (fun _ => false) 0xaabbcc000000 0) % 2 ^ 24
        ≤ 2 ^ 24 - 2) :=
  ⟨by decide, ipam_get_unused_mac_prefix_and_suffix (fun _ => false)
    0xaabbcc000000 0 (by decide)⟩

/-- C6 (counterexample to strictness): with an empty macam and hint 0
the very first probe is free and its suffix is exactly 1, so the
allocated suffix is not strictly greater than 1 as the claimed open
interval `(1, 2^24 - 2)` would require. -/
theorem ipam_get_unused_mac_suffix_can_be_one :
    ipam_get_unused_mac (fun _ => false) 0 0 = 1 ∧
    ¬ (1 < (ipam_get_unused_mac (fun _ => false) 0 0) % 2 ^ 24) := by
  constructor
  · decide
  · decide

/-! ## IGMP group port extraction (`ovn_igmp_group_get_ports`,
ovn-northd.c lines 3240-3272) -/

structure McastRouterInfo where
  relay : Bool
  deriving DecidableEq, Repr

/-- The fields of `struct ovn_port` that `ovn_igmp_group_get_ports`
reads.  `peer` mirrors the `op->peer` pointer and, inside it,
`op->peer->od`; each pointer that may be NULL is an `Option`, and the
router multicast info carries the `relay` flag. -/
structure IgmpPort where
  name : String
  flood : Bool
  peer : Option (Option McastRouterInfo)
  deriving DecidableEq, Repr

def ovn_port_find (ovn_ports : List IgmpPort) (name : String) :
    Option IgmpPort :=
  ovn_ports.find? (fun p => p.name == name)

/-- `ovn_igmp_group_get_ports`, evaluated in an error monad: `none`
models the undefined behaviour of dereferencing the NULL result of
`ovn_port_find`.  The source reads `port->mcast_info.flood` (and
possibly `port->peer->od->mcast_info.rtr.relay`) before any NULL test;
the later test `if (ports[(*n_ports)])` re-checks the pointer that was
already dereferenced, so it always passes and cannot catch a missing
port. -/
def ovn_igmp_group_get_ports (igmp_ports : List String)
    (ovn_ports : List IgmpPort) : Option (List IgmpPort) :=
  match igmp_ports with
  | [] => some []
  | n :: rest =>
    match ovn_port_find ovn_ports n with
    | none => none
    | some port =>
      let skip : Bool :=
        port.flood ||
          (match port.peer with
           | some (some od) => od.relay
           | _ => false)
      match ovn_igmp_group_get_ports rest ovn_ports with
      | none => none
      | some acc => some (if skip then acc else port :: acc)

/-- C9: the extraction succeeds without a NULL dereference exactly when
every `logical_port` named in the southbound IGMP_Group row exists in
the in-memory port table; when any named port is missing, the flood
flag of a NULL pointer is read before the stored-slot NULL test can
intervene. -/
theorem ovn_igmp_group_get_ports_null_safety (igmp_ports : List String)
    (ovn_ports : List IgmpPort) :
    (ovn_igmp_group_get_ports igmp_ports ovn_ports).isSome = true ↔
      ∀ n, n ∈ igmp_ports → (ovn_port_find ovn_ports n).isSome = true := by
  induction igmp_ports with
  | nil =>
    simp [ovn_igmp_group_get_ports]
  | cons n rest ih =>
    constructor
    · intro h m hm
      rcases List.mem_cons.mp hm with hhd | htl
      · subst hhd
        unfold ovn_igmp_group_get_ports at h
        cases hf : ovn_port_find ovn_ports m with
        | none => rw [hf] at h; exact Bool.noConfusion h
        | some p => rfl
      · unfold ovn_igmp_group_get_ports at h
        cases hf : ovn_port_find ovn_ports n with
        | none => rw [hf] at h; exact Bool.noConfusion h
        | some p =>
          rw [hf] at h
          cases hr : ovn_igmp_group_get_ports rest ovn_ports with
          | none => rw [hr] at h; exact Bool.noConfusion h
          | some acc =>
            exact ih.mp (by rw [hr]; rfl) m htl
    · intro h
      unfold ovn_igmp_group_get_ports
      cases hf : ovn_port_find ovn_ports n with
      | none =>
        have := h n (List.mem_cons_self n rest)
        rw [hf] at this
        exact Bool.noConfusion this
      | some p =>
        cases hr : ovn_igmp_group_get_ports rest ovn_ports with
        | none =>
          have := ih.mpr (fun m hm => h m (List.mem_cons_of_mem n hm))
          rw [hr] at this
          exact Bool.noConfusion this
        | some acc => rfl

/-! ## Logical flow table and the flow differ/writer
(`ovn_lflow_add_at` lines 3392-3406, `ovn_lflow_equal`/`ovn_lflow_find`
lines 3367-3436, `build_lflows` lines 8819-8889 of ovn-northd.c) -/

/-- The identity fields of `struct ovn_lflow` (and of a southbound
Logical_Flow row: its `logical_datapath`, `pipeline`+`table_id`
combined into the stage encoding, `priority`, `match`, `actions`).
`od` stands for the owning datapath's identity (pointer identity in C).
The C field `match` is `lmatch` here (`match` is reserved in Lean); the
non-identity fields `stage_hint` and `where` are not compared by
`ovn_lflow_equal` and are omitted. -/
structure OvnLflow where
  od : Nat
  stage : Nat
  priority : Nat
  lmatch : String
  actions : String
  deriving DecidableEq, Repr

def ovn_lflow_equal (a b : OvnLflow) : Bool :=
  a.od == b.od && a.stage == b.stage && a.priority == b.priority &&
    a.lmatch == b.lmatch && a.actions == b.actions

/-- `ovn_lflow_add_at`: an unconditional `hmap_insert` into the flow
table — the hmap is a multiset, so nothing here coalesces duplicates. -/
def ovn_lflow_add_at (lflow_map : List OvnLflow) (od stage priority : Nat)
    (lmatch actions : String) : List OvnLflow :=
  ⟨od, stage, priority, lmatch, actions⟩ :: lflow_map

def ovn_lflow_find (lflows : List OvnLflow) (target : OvnLflow) :
    Option OvnLflow :=
  lflows.find? (fun lf => ovn_lflow_equal lf target)

/-- `ovn_lflow_destroy` of the node `ovn_lflow_find` returned: remove
the first node equal to the target. -/
def ovn_lflow_remove : List OvnLflow → OvnLflow → List OvnLflow
  | [], _ => []
  | lf :: rest, target =>
    if ovn_lflow_equal lf target then rest
    else lf :: ovn_lflow_remove rest target

/-- The Logical_Flow push of `build_lflows`: walk the existing
southbound rows — a row whose identity matches an in-memory flow is
kept and that one flow is destroyed, an unmatched row is deleted — then
insert one fresh southbound row per in-memory flow still in the table. -/
def build_lflows_sync : List OvnLflow → List OvnLflow → List OvnLflow
  | [], lflows => lflows
  | sb :: rest, lflows =>
    match ovn_lflow_find lflows sb with
    | some _ => sb :: build_lflows_sync rest (ovn_lflow_remove lflows sb)
    | none => build_lflows_sync rest lflows

theorem ovn_lflow_equal_iff (a b : OvnLflow) :
    ovn_lflow_equal a b = true ↔ a = b := by
  cases a
  cases b
  simp [ovn_lflow_equal, OvnLflow.mk.injEq, and_assoc]

theorem ovn_lflow_equal_false_iff (a b : OvnLflow) :
    ovn_lflow_equal a b = false ↔ a ≠ b := by
  constructor
  · intro h heq
    rw [heq, (ovn_lflow_equal_iff b b).mpr rfl] at h
    exact Bool.noConfusion h
  · intro h
    cases he : ovn_lflow_equal a b
    · rfl
    · exact absurd ((ovn_lflow_equal_iff a b).mp he) h

theorem ovn_lflow_remove_sublist :
    ∀ (lflows : List OvnLflow) (target : OvnLflow),
      (ovn_lflow_remove lflows target).Sublist lflows := by
  intro lflows target
  induction lflows with
  | nil => exact List.Sublist.refl []
  | cons x xs ih =>
    unfold ovn_lflow_remove
    by_cases hx : ovn_lflow_equal x target
    · rw [if_pos hx]
      exact List.sublist_cons_self x xs
    · rw [if_neg hx]
      exact List.Sublist.cons₂ x ih

/-- Whatever `build_lflows_sync` emits is either a kept southbound row
or an in-memory flow. -/
theorem build_lflows_sync_mem :
    ∀ (sb_rows lflows : List OvnLflow) (y : OvnLflow),
      y ∈ build_lflows_sync sb_rows lflows → y ∈ sb_rows ∨ y ∈ lflows := by
  intro sb_rows
  induction sb_rows with
  | nil => intro lflows y hy; exact Or.inr hy
  | cons sb rest ih =>
    intro lflows y hy
    unfold build_lflows_sync at hy
    cases hf : ovn_lflow_find lflows sb with
    | some lf =>
      rw [hf] at hy
      rcases List.mem_cons.mp hy with hhd | htl
      · exact Or.inl (hhd ▸ List.mem_cons_self sb rest)
      · rcases ih _ y htl with h | h
        · exact Or.inl (List.mem_cons_of_mem sb h)
        · exact Or.inr ((ovn_lflow_remove_sublist lflows sb).subset h)
    | none =>
      rw [hf] at hy
      rcases ih lflows y hy with h | h
      · exact Or.inl (List.mem_cons_of_mem sb h)
      · exact Or.inr h

/-- In a duplicate-free flow table, removing the flow equal to the
matched row removes every flow equal to it. -/
theorem ovn_lflow_remove_clears (target : OvnLflow) :
    ∀ (lflows : List OvnLflow),
      lflows.Pairwise (fun a b => ovn_lflow_equal a b = false) →
      ∀ y, y ∈ ovn_lflow_remove lflows target → y ≠ target := by
  intro lflows
  induction lflows with
  | nil => intro _ y hy; exact absurd hy (List.not_mem_nil y)
  | cons x xs ih =>
    intro hpw y hy
    obtain ⟨hx, hxs⟩ := List.pairwise_cons.mp hpw
    unfold ovn_lflow_remove at hy
    by_cases hxt : ovn_lflow_equal x target
    · rw [if_pos hxt] at hy
      have hxeq : x = target := (ovn_lflow_equal_iff x target).mp hxt
      intro hyt
      have : ovn_lflow_equal x y = false := hx y hy
      rw [ovn_lflow_equal_false_iff] at this
      exact this (by rw [hxeq, hyt])
    · rw [if_neg hxt] at hy
      rcases List.mem_cons.mp hy with h1 | h1
      · intro hyt
        exact hxt ((ovn_lflow_equal_iff x target).mpr (h1.symm.trans hyt))
      · exact ih hxs y h1

/-- C1 (counterexample): `ovn_lflow_add_at` is an unconditional
`hmap_insert`, so adding two flows with identical
(datapath, stage, priority, match, actions) leaves two entries in the
table, and the writer then inserts two identical southbound
Logical_Flow rows — duplicates are not coalesced into a single row. -/
theorem ovn_lflow_duplicates_not_coalesced :
    build_lflows_sync []
        (ovn_lflow_add_at
          (ovn_lflow_add_at [] 7 6 1100 "ip4.src == 10.0.0.10" "next;")
          7 6 1100 "ip4.src == 10.0.0.10" "next;") =
      [⟨7, 6, 1100, "ip4.src == 10.0.0.10", "next;"⟩,
       ⟨7, 6, 1100, "ip4.src == 10.0.0.10", "next;"⟩] ∧
    ovn_lflow_equal ⟨7, 6, 1100, "ip4.src == 10.0.0.10", "next;"⟩
      ⟨7, 6, 1100, "ip4.src == 10.0.0.10", "next;"⟩ = true := by
  constructor
  · rfl
  · decide

/-- C1 (amended): the flow table is a multiset and the writer emits one
southbound row per surviving entry; the southbound rows of a pass are
duplicate-free provided the builders never add two flows with identical
identity (and the prior southbound rows are duplicate-free) — the
matching phase then pairs each kept row with the one equal in-memory
flow and destroys it. -/
theorem build_lflows_sync_distinct (sb_rows : List OvnLflow) :
    ∀ (lflows : List OvnLflow),
      sb_rows.Pairwise (fun a b => ovn_lflow_equal a b = false) →
      lflows.Pairwise (fun a b => ovn_lflow_equal a b = false) →
      (build_lflows_sync sb_rows lflows).Pairwise
        (fun a b => ovn_lflow_equal a b = false) := by
  induction sb_rows with
  | nil => intro lflows _ hlf; exact hlf
  | cons sb rest ih =>
    intro lflows hsb hlf
    obtain ⟨hsb1, hsb2⟩ := List.pairwise_cons.mp hsb
    unfold build_lflows_sync
    cases hf : ovn_lflow_find lflows sb with
    | some lf =>
      have hrm : (ovn_lflow_remove lflows sb).Pairwise
          (fun a b => ovn_lflow_equal a b = false) :=
        List.Pairwise.sublist (ovn_lflow_remove_sublist lflows sb) hlf
      refine List.pairwise_cons.mpr ⟨?_, ih _ hsb2 hrm⟩
      intro y hy
      rcases build_lflows_sync_mem rest _ y hy with h | h
      · exact hsb1 y h
      · rw [ovn_lflow_equal_false_iff]
        intro heq
        exact (ovn_lflow_remove_clears sb lflows hlf y h) heq.symm
    | none => exact ih lflows hsb2 hlf

/-- Witness: the amended C1 theorem at concrete duplicate-free inputs. -/
theorem build_lflows_sync_distinct_witness :
    (([⟨1, 6, 1100, "ip", "drop;"⟩] : List OvnLflow).Pairwise
        (fun a b => ovn_lflow_equal a b = false) ∧
      ([⟨1, 6, 1100, "ip", "drop;"⟩, ⟨1, 6, 1200, "tcp", "next;"⟩] :
          List OvnLflow).Pairwise
        (fun a b => ovn_lflow_equal a b = false)) ∧
    (build_lflows_sync [⟨1, 6, 1100, "ip", "drop;"⟩]
        [⟨1, 6, 1100, "ip", "drop;"⟩, ⟨1, 6, 1200, "tcp", "next;"⟩]).Pairwise
      (fun a b => ovn_lflow_equal a b = false) :=
  ⟨⟨by decide, by decide⟩,
    build_lflows_sync_distinct [⟨1, 6, 1100, "ip", "drop;"⟩]
      [⟨1, 6, 1100, "ip", "drop;"⟩, ⟨1, 6, 1200, "tcp", "next;"⟩]
      (by decide) (by decide)⟩

/-! ## ACL stage flows
(`build_acls` lines 4720-4905, `consider_acl` lines 4509-4655,
`build_acl_log` lines 4399-4432, `build_reject_acl_rules` lines
4434-4507, `has_stateful_acl` lines 3984-4006 of ovn-northd.c)

Stage encoding per `OVN_STAGE_BUILD`:
`(dp_type << 9) | (pipeline << 8) | table`. -/

def DP_SWITCH : Nat := 0
def DP_ROUTER : Nat := 1
def P_IN : Nat := 0
def P_OUT : Nat := 1

def OVN_STAGE_BUILD (dp_type pipeline table : Nat) : Nat :=
  (dp_type <<< 9) ||| (pipeline <<< 8) ||| table

def S_SWITCH_IN_ACL : Nat := OVN_STAGE_BUILD DP_SWITCH P_IN 6
def S_SWITCH_OUT_ACL : Nat := OVN_STAGE_BUILD DP_SWITCH P_OUT 4

def OVN_ACL_PRI_OFFSET : Nat := 1000

/-- The columns of a northbound ACL row that the ACL flow builder
reads.  The nb `match` column is `aclmatch` (`match` is reserved in
Lean). -/
structure NbAcl where
  direction : String
  priority : Nat
  aclmatch : String
  action : String
  log : Bool
  name : Option String
  severity : Option String
  meter : Option String
  deriving DecidableEq, Repr

/-- The pieces of one logical switch that `build_acls` consumes:
its own ACL rows, the rows of the port groups that intersect it
(`od->nb_pgs`, flattened in iteration order), its ports' DHCP options
(already reduced to the validated `server_id`/`server_mac`/`lease_time`
triple for v4 and the parsed `server_id` MAC for v6), and whether any
DNS record is attached. -/
structure AclPort where
  name : String
  external : Bool
  dhcpv4 : Option (String × String × String)
  dhcpv6_server_mac : Option String
  deriving DecidableEq, Repr

structure AclSwitch where
  key : Nat
  acls : List NbAcl
  pg_acls : List NbAcl
  ports : List AclPort
  has_dns_records : Bool
  deriving DecidableEq, Repr

def has_stateful_acl (od : AclSwitch) : Bool :=
  od.acls.any (fun acl => acl.action == "allow-related") ||
    od.pg_acls.any (fun acl => acl.action == "allow-related")

def ds_chomp (s : String) (c : Char) : String :=
  if s.endsWith (String.mk [c]) then s.dropRight 1 else s

def build_acl_log (acl : NbAcl) : String :=
  if ¬ acl.log then ""
  else
    let s := "log("
    let s := match acl.name with
      | some n => s ++ "name=\"" ++ n ++ "\", "
      | none => s
    let s := match acl.severity with
      | some sev => s ++ "severity=" ++ sev ++ ", "
      | none => s ++ "severity=info, "
    let s :=
      if acl.action == "drop" then s ++ "verdict=drop, "
      else if acl.action == "reject" then s ++ "verdict=reject, "
      else if acl.action == "allow" || acl.action == "allow-related" then
        s ++ "verdict=allow, "
      else s
    let s := match acl.meter with
      | some m => s ++ "meter=\"" ++ m ++ "\", "
      | none => s
    ds_chomp (ds_chomp s ' ') ',' ++ "); "

def build_reject_acl_rules (od_key : Nat) (stage : Nat) (acl : NbAcl)
    (extra_match extra_actions : String) (lflows : List OvnLflow) :
    List OvnLflow :=
  let ingress := stage == S_SWITCH_IN_ACL
  let next_action : String :=
    if ingress then "output;" else "next(pipeline=ingress,table=0);"
  let pre : String :=
    if extra_match.length > 0 then "(" ++ extra_match ++ ") && " else ""
  let epre : String :=
    if extra_actions.length > 0 then extra_actions ++ " " else ""
  let lflows := ovn_lflow_add_at lflows od_key stage
    (acl.priority + OVN_ACL_PRI_OFFSET + 10)
    (pre ++ "ip4 && tcp && (" ++ acl.aclmatch ++ ")")
    (build_acl_log acl ++
      "reg0 = 0; eth.dst <-> eth.src; ip4.dst <-> ip4.src; " ++
      "tcp_reset \x7b outport <-> inport; " ++ next_action ++ " \x7d;")
  let lflows := ovn_lflow_add_at lflows od_key stage
    (acl.priority + OVN_ACL_PRI_OFFSET + 10)
    (pre ++ "ip6 && tcp && (" ++ acl.aclmatch ++ ")")
    (build_acl_log acl ++
      "reg0 = 0; eth.dst <-> eth.src; ip6.dst <-> ip6.src; " ++
      "tcp_reset \x7b outport <-> inport; " ++ next_action ++ " \x7d;")
  let lflows := ovn_lflow_add_at lflows od_key stage
    (acl.priority + OVN_ACL_PRI_OFFSET)
    (pre ++ "ip4 && (" ++ acl.aclmatch ++ ")")
    (build_acl_log acl ++ epre ++
      "reg0 = 0; eth.dst <-> eth.src; ip4.dst <-> ip4.src; " ++
      "icmp4 \x7b outport <-> inport; " ++ next_action ++ " \x7d;")
  ovn_lflow_add_at lflows od_key stage
    (acl.priority + OVN_ACL_PRI_OFFSET)
    (pre ++ "ip6 && (" ++ acl.aclmatch ++ ")")
    (build_acl_log acl ++ epre ++
      "reg0 = 0; icmp6 \x7b eth.dst <-> eth.src; ip6.dst <-> ip6.src; " ++
      "outport <-> inport; " ++ next_action ++ " \x7d;")

def consider_acl (lflows : List OvnLflow) (od_key : Nat) (acl : NbAcl)
    (has_stateful : Bool) : List OvnLflow :=
  let ingress := acl.direction == "from-lport"
  let stage := if ingress then S_SWITCH_IN_ACL else S_SWITCH_OUT_ACL
  if acl.action == "allow" || acl.action == "allow-related" then
    if ¬ has_stateful then
      ovn_lflow_add_at lflows od_key stage (acl.priority + OVN_ACL_PRI_OFFSET)
        acl.aclmatch (build_acl_log acl ++ "next;")
    else
      let lflows := ovn_lflow_add_at lflows od_key stage
        (acl.priority + OVN_ACL_PRI_OFFSET)
        ("((ct.new && !ct.est) || (!ct.new && ct.est && !ct.rpl " ++
          "&& ct_label.blocked == 1)) && (" ++ acl.aclmatch ++ ")")
        ("reg0[1] = 1; " ++ build_acl_log acl ++ "next;")
      ovn_lflow_add_at lflows od_key stage (acl.priority + OVN_ACL_PRI_OFFSET)
        ("!ct.new && ct.est && !ct.rpl && ct_label.blocked == 0 && (" ++
          acl.aclmatch ++ ")")
        (build_acl_log acl ++ "next;")
  else if acl.action == "drop" || acl.action == "reject" then
    if has_stateful then
      let m1 := "(!ct.est || (ct.est && ct_label.blocked == 1))"
      let lflows :=
        if acl.action == "reject" then
          build_reject_acl_rules od_key stage acl m1 "" lflows
        else
          ovn_lflow_add_at lflows od_key stage
            (acl.priority + OVN_ACL_PRI_OFFSET)
            (m1 ++ " && (" ++ acl.aclmatch ++ ")")
            (build_acl_log acl ++ "/* drop */")
      let m2 := "ct.est && ct_label.blocked == 0"
      if acl.action == "reject" then
        build_reject_acl_rules od_key stage acl m2
          "ct_commit(ct_label=1/1); " lflows
      else
        ovn_lflow_add_at lflows od_key stage
          (acl.priority + OVN_ACL_PRI_OFFSET)
          (m2 ++ " && (" ++ acl.aclmatch ++ ")")
          ("ct_commit(ct_label=1/1); " ++ build_acl_log acl ++ "/* drop */")
    else
      if acl.action == "reject" then
        build_reject_acl_rules od_key stage acl "" "" lflows
      else
        ovn_lflow_add_at lflows od_key stage
          (acl.priority + OVN_ACL_PRI_OFFSET)
          acl.aclmatch (build_acl_log acl ++ "/* drop */")
  else lflows

/-- The four fixed 65535-priority rules of one pipeline's acl stage. -/
def acl_invalid_drop (od_key stage : Nat) : OvnLflow :=
  ⟨od_key, stage, 65535,
    "ct.inv || (ct.est && ct.rpl && ct_label.blocked == 1)", "drop;"⟩

def acl_reply_allow (od_key stage : Nat) : OvnLflow :=
  ⟨od_key, stage, 65535,
    "ct.est && !ct.rel && !ct.new && !ct.inv && ct.rpl && ct_label.blocked == 0",
    "next;"⟩

def acl_related_allow (od_key stage : Nat) : OvnLflow :=
  ⟨od_key, stage, 65535,
    "!ct.est && ct.rel && !ct.new && !ct.inv && ct_label.blocked == 0",
    "next;"⟩

def acl_nd_bypass (od_key stage : Nat) : OvnLflow :=
  ⟨od_key, stage, 65535, "nd", "next;"⟩

/-- The per-port DHCP-reply allowance pass at the end of `build_acls`.
`in6_lla` stands for the link-local address string that
`in6_generate_lla` + `ipv6_string_mapped` derive from the DHCPv6
server MAC (library code outside this repository). -/
def build_acls_dhcp_port (od_key : Nat) (stateful : Bool)
    (in6_lla : String → String) (lflows : List OvnLflow) (p : AclPort) :
    List OvnLflow :=
  if p.external then lflows
  else
    let lflows :=
      match p.dhcpv4 with
      | some (server_id, server_mac, _lease_time) =>
        ovn_lflow_add_at lflows od_key S_SWITCH_OUT_ACL 34000
          ("outport == \"" ++ p.name ++ "\" && eth.src == " ++ server_mac ++
            " && ip4.src == " ++ server_id ++
            " && udp && udp.src == 67 && udp.dst == 68")
          (if stateful then "ct_commit; next;" else "next;")
      | none => lflows
    match p.dhcpv6_server_mac with
    | some server_mac =>
      ovn_lflow_add_at lflows od_key S_SWITCH_OUT_ACL 34000
        ("outport == \"" ++ p.name ++ "\" && eth.src == " ++ server_mac ++
          " && ip6.src == " ++ in6_lla server_mac ++
          " && udp && udp.src == 547 && udp.dst == 546")
        (if stateful then "ct_commit; next;" else "next;")
    | none => lflows

def build_acls_dhcp (od_key : Nat) (stateful : Bool)
    (in6_lla : String → String) (ports : List AclPort)
    (lflows : List OvnLflow) : List OvnLflow :=
  ports.foldl (build_acls_dhcp_port od_key stateful in6_lla) lflows

def build_acls (in6_lla : String → String) (od : AclSwitch)
    (lflows : List OvnLflow) : List OvnLflow :=
  let stateful := has_stateful_acl od
  let lflows := ovn_lflow_add_at lflows od.key S_SWITCH_IN_ACL 0 "1" "next;"
  let lflows := ovn_lflow_add_at lflows od.key S_SWITCH_OUT_ACL 0 "1" "next;"
  let lflows :=
    if stateful then
      let lflows := ovn_lflow_add_at lflows od.key S_SWITCH_IN_ACL 1
        "ip && (!ct.est || (ct.est && ct_label.blocked == 1))"
        "reg0[1] = 1; next;"
      let lflows := ovn_lflow_add_at lflows od.key S_SWITCH_OUT_ACL 1
        "ip && (!ct.est || (ct.est && ct_label.blocked == 1))"
        "reg0[1] = 1; next;"
      let lflows := ovn_lflow_add_at lflows od.key S_SWITCH_IN_ACL 65535
        "ct.inv || (ct.est && ct.rpl && ct_label.blocked == 1)" "drop;"
      let lflows := ovn_lflow_add_at lflows od.key S_SWITCH_OUT_ACL 65535
        "ct.inv || (ct.est && ct.rpl && ct_label.blocked == 1)" "drop;"
      let lflows := ovn_lflow_add_at lflows od.key S_SWITCH_IN_ACL 65535
        "ct.est && !ct.rel && !ct.new && !ct.inv && ct.rpl && ct_label.blocked == 0"
        "next;"
      let lflows := ovn_lflow_add_at lflows od.key S_SWITCH_OUT_ACL 65535
        "ct.est && !ct.rel && !ct.new && !ct.inv && ct.rpl && ct_label.blocked == 0"
        "next;"
      let lflows := ovn_lflow_add_at lflows od.key S_SWITCH_IN_ACL 65535
        "!ct.est && ct.rel && !ct.new && !ct.inv && ct_label.blocked == 0"
        "next;"
      let lflows := ovn_lflow_add_at lflows od.key S_SWITCH_OUT_ACL 65535
        "!ct.est && ct.rel && !ct.new && !ct.inv && ct_label.blocked == 0"
        "next;"
      let lflows := ovn_lflow_add_at lflows od.key S_SWITCH_IN_ACL 65535
        "nd" "next;"
      ovn_lflow_add_at lflows od.key S_SWITCH_OUT_ACL 65535 "nd" "next;"
    else lflows
  let lflows := od.acls.foldl
    (fun lflows acl => consider_acl lflows od.key acl stateful) lflows
  let lflows := od.pg_acls.foldl
    (fun lflows acl => consider_acl lflows od.key acl stateful) lflows
  let lflows := build_acls_dhcp od.key stateful in6_lla od.ports lflows
  if od.has_dns_records then
    ovn_lflow_add_at lflows od.key S_SWITCH_OUT_ACL 34000 "udp.src == 53"
      (if stateful then "ct_commit; next;" else "next;")
  else lflows

theorem build_reject_acl_rules_mem (od_key stage : Nat) (acl : NbAcl)
    (em ea : String) (lflows : List OvnLflow) :
    ∀ f, f ∈ build_reject_acl_rules od_key stage acl em ea lflows →
      f ∈ lflows ∨
        (f.od = od_key ∧ f.stage = stage ∧
          (f.priority = acl.priority + 1000 ∨
            f.priority = acl.priority + 1010)) := by
  intro f hf
  unfold build_reject_acl_rules ovn_lflow_add_at at hf
  simp only [List.mem_cons] at hf
  rcases hf with rfl | rfl | rfl | rfl | hf
  · exact Or.inr ⟨rfl, rfl, Or.inl (by unfold OVN_ACL_PRI_OFFSET; rfl)⟩
  · exact Or.inr ⟨rfl, rfl, Or.inl (by unfold OVN_ACL_PRI_OFFSET; rfl)⟩
  · exact Or.inr ⟨rfl, rfl, Or.inr (by unfold OVN_ACL_PRI_OFFSET; rfl)⟩
  · exact Or.inr ⟨rfl, rfl, Or.inr (by unfold OVN_ACL_PRI_OFFSET; rfl)⟩
  · exact Or.inl hf

theorem build_reject_acl_rules_acc (od_key stage : Nat) (acl : NbAcl)
    (em ea : String) (lflows : List OvnLflow) :
    ∀ f, f ∈ lflows → f ∈ build_reject_acl_rules od_key stage acl em ea lflows := by
  intro f hf
  unfold build_reject_acl_rules ovn_lflow_add_at
  simp only [List.mem_cons]
  exact Or.inr (Or.inr (Or.inr (Or.inr hf)))

theorem consider_acl_mem (lflows : List OvnLflow) (od_key : Nat) (acl : NbAcl)
    (hs : Bool) :
    ∀ f, f ∈ consider_acl lflows od_key acl hs →
      f ∈ lflows ∨
        (f.od = od_key ∧
          (f.stage = S_SWITCH_IN_ACL ∨ f.stage = S_SWITCH_OUT_ACL) ∧
          (f.priority = acl.priority + 1000 ∨
            (acl.action = "reject" ∧ f.priority = acl.priority + 1010))) := by
  intro f hf
  have hstage : (if acl.direction == "from-lport" then S_SWITCH_IN_ACL
      else S_SWITCH_OUT_ACL) = S_SWITCH_IN_ACL ∨
      (if acl.direction == "from-lport" then S_SWITCH_IN_ACL
      else S_SWITCH_OUT_ACL) = S_SWITCH_OUT_ACL := by
    by_cases h : acl.direction == "from-lport"
    · exact Or.inl (by rw [if_pos h])
    · exact Or.inr (by rw [if_neg h])
  unfold consider_acl at hf
  by_cases hA : (acl.action == "allow" || acl.action == "allow-related") = true
  · rw [if_pos hA] at hf
    by_cases hS : hs
    · simp only [hS, not_true_eq_false, if_false] at hf
      unfold ovn_lflow_add_at at hf
      rcases List.mem_cons.mp hf with rfl | hf
      · exact Or.inr ⟨rfl, hstage, Or.inl (by unfold OVN_ACL_PRI_OFFSET; rfl)⟩
      · rcases List.mem_cons.mp hf with rfl | hf
        · exact Or.inr ⟨rfl, hstage, Or.inl (by unfold OVN_ACL_PRI_OFFSET; rfl)⟩
        · exact Or.inl hf
    · simp only [hS, not_false_eq_true, if_true] at hf
      unfold ovn_lflow_add_at at hf
      rcases List.mem_cons.mp hf with rfl | hf
      · exact Or.inr ⟨rfl, hstage, Or.inl (by unfold OVN_ACL_PRI_OFFSET; rfl)⟩
      · exact Or.inl hf
  · rw [if_neg hA] at hf
    by_cases hD : (acl.action == "drop" || acl.action == "reject") = true
    · rw [if_pos hD] at hf
      have hrej : (acl.action == "reject") = true → acl.action = "reject" :=
        fun h => eq_of_beq h
      by_cases hS : hs
      · rw [if_pos hS] at hf
        by_cases hR : (acl.action == "reject") = true
        · simp only [hR, if_true] at hf
          rcases build_reject_acl_rules_mem _ _ _ _ _ _ f hf with h | ⟨h1, h2, h3⟩
          · rcases build_reject_acl_rules_mem _ _ _ _ _ _ f h with h' | ⟨h1, h2, h3⟩
            · exact Or.inl h'
            · refine Or.inr ⟨h1, h2 ▸ hstage, ?_⟩
              rcases h3 with h3 | h3
              · exact Or.inl h3
              · exact Or.inr ⟨hrej hR, h3⟩
          · refine Or.inr ⟨h1, h2 ▸ hstage, ?_⟩
            rcases h3 with h3 | h3
            · exact Or.inl h3
            · exact Or.inr ⟨hrej hR, h3⟩
        · simp only [hR, if_false] at hf
          unfold ovn_lflow_add_at at hf
          rcases List.mem_cons.mp hf with rfl | hf
          · exact Or.inr ⟨rfl, hstage, Or.inl (by unfold OVN_ACL_PRI_OFFSET; rfl)⟩
          · rcases List.mem_cons.mp hf with rfl | hf
            · exact Or.inr ⟨rfl, hstage,
                Or.inl (by unfold OVN_ACL_PRI_OFFSET; rfl)⟩
            · exact Or.inl hf
      · rw [if_neg hS] at hf
        by_cases hR : (acl.action == "reject") = true
        · simp only [hR, if_true] at hf
          rcases build_reject_acl_rules_mem _ _ _ _ _ _ f hf with h | ⟨h1, h2, h3⟩
          · exact Or.inl h
          · refine Or.inr ⟨h1, h2 ▸ hstage, ?_⟩
            rcases h3 with h3 | h3
            · exact Or.inl h3
            · exact Or.inr ⟨hrej hR, h3⟩
        · simp only [hR, if_false] at hf
          unfold ovn_lflow_add_at at hf
          rcases List.mem_cons.mp hf with rfl | hf
          · exact Or.inr ⟨rfl, hstage, Or.inl (by unfold OVN_ACL_PRI_OFFSET; rfl)⟩
          · exact Or.inl hf
    · rw [if_neg hD] at hf
      exact Or.inl hf

theorem consider_acl_acc (lflows : List OvnLflow) (od_key : Nat) (acl : NbAcl)
    (hs : Bool) :
    ∀ f, f ∈ lflows → f ∈ consider_acl lflows od_key acl hs := by
  intro f hf
  unfold consider_acl
  by_cases hA : (acl.action == "allow" || acl.action == "allow-related") = true
  · rw [if_pos hA]
    by_cases hS : hs
    · simp only [hS, not_true_eq_false, if_false]
      unfold ovn_lflow_add_at
      exact List.mem_cons_of_mem _ (List.mem_cons_of_mem _ hf)
    · simp only [hS, not_false_eq_true, if_true]
      unfold ovn_lflow_add_at
      exact List.mem_cons_of_mem _ hf
  · rw [if_neg hA]
    by_cases hD : (acl.action == "drop" || acl.action == "reject") = true
    · rw [if_pos hD]
      by_cases hS : hs
      · rw [if_pos hS]
        by_cases hR : (acl.action == "reject") = true
        · simp only [hR, if_true]
          exact build_reject_acl_rules_acc _ _ _ _ _ _ f
            (build_reject_acl_rules_acc _ _ _ _ _ _ f hf)
        · simp only [hR, if_false]
          unfold ovn_lflow_add_at
          exact List.mem_cons_of_mem _ (List.mem_cons_of_mem _ hf)
      · rw [if_neg hS]
        by_cases hR : (acl.action == "reject") = true
        · simp only [hR, if_true]
          exact build_reject_acl_rules_acc _ _ _ _ _ _ f hf
        · simp only [hR, if_false]
          unfold ovn_lflow_add_at
          exact List.mem_cons_of_mem _ hf
    · rw [if_neg hD]
      exact hf

/-- Every valid ACL action produces at least one flow at
`acl.priority + 1000` for its datapath. -/
theorem consider_acl_emits (lflows : List OvnLflow) (od_key : Nat)
    (acl : NbAcl) (hs : Bool)
    (hv : acl.action = "allow" ∨ acl.action = "allow-related" ∨
      acl.action = "drop" ∨ acl.action = "reject") :
    ∃ f, f ∈ consider_acl lflows od_key acl hs ∧ f.od = od_key ∧
      f.priority = acl.priority + 1000 := by
  unfold consider_acl
  by_cases hA : (acl.action == "allow" || acl.action == "allow-related") = true
  · rw [if_pos hA]
    by_cases hS : hs
    · simp only [hS, not_true_eq_false, if_false]
      unfold ovn_lflow_add_at
      refine ⟨_, List.mem_cons_self _ _, rfl, ?_⟩
      unfold OVN_ACL_PRI_OFFSET
      rfl
    · simp only [hS, not_false_eq_true, if_true]
      unfold ovn_lflow_add_at
      refine ⟨_, List.mem_cons_self _ _, rfl, ?_⟩
      unfold OVN_ACL_PRI_OFFSET
      rfl
  · rw [if_neg hA]
    have hD : (acl.action == "drop" || acl.action == "reject") = true := by
      rcases hv with h | h | h | h
      · rw [h] at hA; exact absurd rfl hA
      · rw [h] at hA; exact absurd rfl hA
      · rw [h]; rfl
      · rw [h]; rfl
    rw [if_pos hD]
    by_cases hS : hs
    · rw [if_pos hS]
      by_cases hR : (acl.action == "reject") = true
      · simp only [hR, if_true]
        unfold build_reject_acl_rules ovn_lflow_add_at
        refine ⟨_, List.mem_cons_self _ _, rfl, ?_⟩
        unfold OVN_ACL_PRI_OFFSET
        rfl
      · simp only [hR, if_false]
        unfold ovn_lflow_add_at
        refine ⟨_, List.mem_cons_self _ _, rfl, ?_⟩
        unfold OVN_ACL_PRI_OFFSET
        rfl
    · rw [if_neg hS]
      by_cases hR : (acl.action == "reject") = true
      · simp only [hR, if_true]
        unfold build_reject_acl_rules ovn_lflow_add_at
        refine ⟨_, List.mem_cons_self _ _, rfl, ?_⟩
        unfold OVN_ACL_PRI_OFFSET
        rfl
      · simp only [hR, if_false]
        unfold ovn_lflow_add_at
        refine ⟨_, List.mem_cons_self _ _, rfl, ?_⟩
        unfold OVN_ACL_PRI_OFFSET
        rfl

theorem foldl_consider_mem (od_key : Nat) (hs : Bool) :
    ∀ (acls : List NbAcl) (base : List OvnLflow) (f : OvnLflow),
      f ∈ acls.foldl (fun l acl => consider_acl l od_key acl hs) base →
      f ∈ base ∨ ∃ acl, acl ∈ acls ∧ f.od = od_key ∧
        (f.stage = S_SWITCH_IN_ACL ∨ f.stage = S_SWITCH_OUT_ACL) ∧
        (f.priority = acl.priority + 1000 ∨
          (acl.action = "reject" ∧ f.priority = acl.priority + 1010)) := by
  intro acls
  induction acls with
  | nil => intro base f hf; exact Or.inl hf
  | cons a rest ih =>
    intro base f hf
    simp only [List.foldl_cons] at hf
    rcases ih _ f hf with h | ⟨acl, hacl, hrest⟩
    · rcases consider_acl_mem base od_key a hs f h with h1 | h1
      · exact Or.inl h1
      · exact Or.inr ⟨a, List.mem_cons_self a rest, h1⟩
    · exact Or.inr ⟨acl, List.mem_cons_of_mem a hacl, hrest⟩

theorem foldl_consider_acc (od_key : Nat) (hs : Bool) :
    ∀ (acls : List NbAcl) (base : List OvnLflow) (f : OvnLflow), f ∈ base →
      f ∈ acls.foldl (fun l acl => consider_acl l od_key acl hs) base := by
  intro acls
  induction acls with
  | nil => intro base f hf; exact hf
  | cons a rest ih =>
    intro base f hf
    simp only [List.foldl_cons]
    exact ih _ f (consider_acl_acc base od_key a hs f hf)

/-- An ACL of the list is translated by the fold: some flow at its
priority + 1000 appears. -/
theorem foldl_consider_contains (od_key : Nat) (hs : Bool) :
    ∀ (acls : List NbAcl) (base : List OvnLflow) (acl : NbAcl), acl ∈ acls →
      (acl.action = "allow" ∨ acl.action = "allow-related" ∨
        acl.action = "drop" ∨ acl.action = "reject") →
      ∃ f, f ∈ acls.foldl (fun l a => consider_acl l od_key a hs) base ∧
        f.od = od_key ∧ f.priority = acl.priority + 1000 := by
  intro acls
  induction acls with
  | nil => intro base acl h; exact absurd h (List.not_mem_nil acl)
  | cons a rest ih =>
    intro base acl hacl hv
    simp only [List.foldl_cons]
    rcases List.mem_cons.mp hacl with rfl | htl
    · obtain ⟨f, hf, ho, hp⟩ := consider_acl_emits base od_key acl hs hv
      exact ⟨f, foldl_consider_acc od_key hs rest _ f hf, ho, hp⟩
    · exact ih _ acl htl hv

theorem build_acls_dhcp_port_mem (od_key : Nat) (st : Bool)
    (lla : String → String) (base : List OvnLflow) (p : AclPort) :
    ∀ f, f ∈ build_acls_dhcp_port od_key st lla base p →
      f ∈ base ∨
        (f.od = od_key ∧ f.stage = S_SWITCH_OUT_ACL ∧ f.priority = 34000) := by
  intro f hf
  unfold build_acls_dhcp_port at hf
  by_cases he : p.external
  · rw [if_pos he] at hf
    exact Or.inl hf
  · rw [if_neg he] at hf
    cases h4 : p.dhcpv4 with
    | none =>
      rw [h4] at hf
      cases h6 : p.dhcpv6_server_mac with
      | none => rw [h6] at hf; exact Or.inl hf
      | some m =>
        rw [h6] at hf
        unfold ovn_lflow_add_at at hf
        rcases List.mem_cons.mp hf with rfl | hf
        · exact Or.inr ⟨rfl, rfl, rfl⟩
        · exact Or.inl hf
    | some t =>
      obtain ⟨sid, smac, lt⟩ := t
      rw [h4] at hf
      cases h6 : p.dhcpv6_server_mac with
      | none =>
        rw [h6] at hf
        unfold ovn_lflow_add_at at hf
        rcases List.mem_cons.mp hf with rfl | hf
        · exact Or.inr ⟨rfl, rfl, rfl⟩
        · exact Or.inl hf
      | some m =>
        rw [h6] at hf
        unfold ovn_lflow_add_at at hf
        rcases List.mem_cons.mp hf with rfl | hf
        · exact Or.inr ⟨rfl, rfl, rfl⟩
        · rcases List.mem_cons.mp hf with rfl | hf
          · exact Or.inr ⟨rfl, rfl, rfl⟩
          · exact Or.inl hf

theorem build_acls_dhcp_port_acc (od_key : Nat) (st : Bool)
    (lla : String → String) (base : List OvnLflow) (p : AclPort) :
    ∀ f, f ∈ base → f ∈ build_acls_dhcp_port od_key st lla base p := by
  intro f hf
  unfold build_acls_dhcp_port
  by_cases he : p.external
  · rw [if_pos he]
    exact hf
  · rw [if_neg he]
    cases h4 : p.dhcpv4 with
    | none =>
      cases h6 : p.dhcpv6_server_mac with
      | none => exact hf
      | some m =>
        unfold ovn_lflow_add_at
        exact List.mem_cons_of_mem _ hf
    | some t =>
      obtain ⟨sid, smac, lt⟩ := t
      cases h6 : p.dhcpv6_server_mac with
      | none =>
        unfold ovn_lflow_add_at
        exact List.mem_cons_of_mem _ hf
      | some m =>
        unfold ovn_lflow_add_at
        exact List.mem_cons_of_mem _ (List.mem_cons_of_mem _ hf)

theorem build_acls_dhcp_mem (od_key : Nat) (st : Bool) (lla : String → String) :
    ∀ (ports : List AclPort) (base : List OvnLflow) (f : OvnLflow),
      f ∈ build_acls_dhcp od_key st lla ports base →
      f ∈ base ∨
        (f.od = od_key ∧ f.stage = S_SWITCH_OUT_ACL ∧ f.priority = 34000) := by
  intro ports
  induction ports with
  | nil => intro base f hf; exact Or.inl hf
  | cons p rest ih =>
    intro base f hf
    unfold build_acls_dhcp at hf
    simp only [List.foldl_cons] at hf
    rcases ih _ f hf with h | h
    · exact build_acls_dhcp_port_mem od_key st lla base p f h
    · exact Or.inr h

theorem build_acls_dhcp_acc (od_key : Nat) (st : Bool) (lla : String → String) :
    ∀ (ports : List AclPort) (base : List OvnLflow) (f : OvnLflow), f ∈ base →
      f ∈ build_acls_dhcp od_key st lla ports base := by
  intro ports
  induction ports with
  | nil => intro base f hf; exact hf
  | cons p rest ih =>
    intro base f hf
    unfold build_acls_dhcp
    simp only [List.foldl_cons]
    exact ih _ f (build_acls_dhcp_port_acc od_key st lla base p f hf)

/-- The twelve flows `build_acls` seeds a stateful datapath with, in
the list order produced by the successive `ovn_lflow_add` calls (most
recent first). -/
def acl_base_flows (k : Nat) : List OvnLflow :=
  [⟨k, S_SWITCH_OUT_ACL, 65535, "nd", "next;"⟩,
   ⟨k, S_SWITCH_IN_ACL, 65535, "nd", "next;"⟩,
   ⟨k, S_SWITCH_OUT_ACL, 65535,
     "!ct.est && ct.rel && !ct.new && !ct.inv && ct_label.blocked == 0",
     "next;"⟩,
   ⟨k, S_SWITCH_IN_ACL, 65535,
     "!ct.est && ct.rel && !ct.new && !ct.inv && ct_label.blocked == 0",
     "next;"⟩,
   ⟨k, S_SWITCH_OUT_ACL, 65535,
     "ct.est && !ct.rel && !ct.new && !ct.inv && ct.rpl && ct_label.blocked == 0",
     "next;"⟩,
   ⟨k, S_SWITCH_IN_ACL, 65535,
     "ct.est && !ct.rel && !ct.new && !ct.inv && ct.rpl && ct_label.blocked == 0",
     "next;"⟩,
   ⟨k, S_SWITCH_OUT_ACL, 65535,
     "ct.inv || (ct.est && ct.rpl && ct_label.blocked == 1)", "drop;"⟩,
   ⟨k, S_SWITCH_IN_ACL, 65535,
     "ct.inv || (ct.est && ct.rpl && ct_label.blocked == 1)", "drop;"⟩,
   ⟨k, S_SWITCH_OUT_ACL, 1,
     "ip && (!ct.est || (ct.est && ct_label.blocked == 1))",
     "reg0[1] = 1; next;"⟩,
   ⟨k, S_SWITCH_IN_ACL, 1,
     "ip && (!ct.est || (ct.est && ct_label.blocked == 1))",
     "reg0[1] = 1; next;"⟩,
   ⟨k, S_SWITCH_OUT_ACL, 0, "1", "next;"⟩,
   ⟨k, S_SWITCH_IN_ACL, 0, "1", "next;"⟩]

theorem build_acls_spine (in6_lla : String → String) (od : AclSwitch)
    (hst : has_stateful_acl od = true) :
    build_acls in6_lla od [] =
      (if od.has_dns_records then
        ovn_lflow_add_at
          (build_acls_dhcp od.key true in6_lla od.ports
            (od.pg_acls.foldl (fun l acl => consider_acl l od.key acl true)
              (od.acls.foldl (fun l acl => consider_acl l od.key acl true)
                (acl_base_flows od.key))))
          od.key S_SWITCH_OUT_ACL 34000 "udp.src == 53" "ct_commit; next;"
      else
        build_acls_dhcp od.key true in6_lla od.ports
          (od.pg_acls.foldl (fun l acl => consider_acl l od.key acl true)
            (od.acls.foldl (fun l acl => consider_acl l od.key acl true)
              (acl_base_flows od.key)))) := by
  unfold build_acls
  rw [hst]
  rfl

/-- C8 (amended): a stateful logical switch datapath (one with at least
one allow-related ACL) installs FOUR fixed 65535-priority rules in each
of the ingress and egress acl stages — invalid-drop,
reply-of-established-allow, related-of-established-allow and ND-bypass
(the claimed count of five is wrong); and every northbound ACL row with
a valid action is translated into flows at logical-flow priority
`acl.priority + 1000`, except that a reject ACL's TCP flows sit at
`acl.priority + 1010`.  The priority bound 32767 is the northbound
schema's maximum for ACL priorities. -/
theorem build_acls_stateful_rules (in6_lla : String → String)
    (od : AclSwitch) (hst : has_stateful_acl od = true)
    (hpri : ∀ acl, (acl ∈ od.acls ∨ acl ∈ od.pg_acls) →
      acl.priority ≤ 32767) :
    (∀ f, f ∈ build_acls in6_lla od [] → f.priority = 65535 →
      f = acl_invalid_drop od.key S_SWITCH_IN_ACL ∨
      f = acl_reply_allow od.key S_SWITCH_IN_ACL ∨
      f = acl_related_allow od.key S_SWITCH_IN_ACL ∨
      f = acl_nd_bypass od.key S_SWITCH_IN_ACL ∨
      f = acl_invalid_drop od.key S_SWITCH_OUT_ACL ∨
      f = acl_reply_allow od.key S_SWITCH_OUT_ACL ∨
      f = acl_related_allow od.key S_SWITCH_OUT_ACL ∨
      f = acl_nd_bypass od.key S_SWITCH_OUT_ACL) ∧
    (acl_invalid_drop od.key S_SWITCH_IN_ACL ∈ build_acls in6_lla od [] ∧
      acl_reply_allow od.key S_SWITCH_IN_ACL ∈ build_acls in6_lla od [] ∧
      acl_related_allow od.key S_SWITCH_IN_ACL ∈ build_acls in6_lla od [] ∧
      acl_nd_bypass od.key S_SWITCH_IN_ACL ∈ build_acls in6_lla od [] ∧
      acl_invalid_drop od.key S_SWITCH_OUT_ACL ∈ build_acls in6_lla od [] ∧
      acl_reply_allow od.key S_SWITCH_OUT_ACL ∈ build_acls in6_lla od [] ∧
      acl_related_allow od.key S_SWITCH_OUT_ACL ∈ build_acls in6_lla od [] ∧
      acl_nd_bypass od.key S_SWITCH_OUT_ACL ∈ build_acls in6_lla od []) ∧
    (∀ acl, (acl ∈ od.acls ∨ acl ∈ od.pg_acls) →
      ∀ f, f ∈ consider_acl [] od.key acl (has_stateful_acl od) →
        f.priority = acl.priority + 1000 ∨
          (acl.action = "reject" ∧ f.priority = acl.priority + 1010)) ∧
    (∀ acl, (acl ∈ od.acls ∨ acl ∈ od.pg_acls) →
      (acl.action = "allow" ∨ acl.action = "allow-related" ∨
        acl.action = "drop" ∨ acl.action = "reject") →
      ∃ f, f ∈ build_acls in6_lla od [] ∧ f.od = od.key ∧
        f.priority = acl.priority + 1000) := by
  have hsp := build_acls_spine in6_lla od hst
  refine ⟨?_, ?_, ?_, ?_⟩
  · intro f hf hp
    rw [hsp] at hf
    have hcore : f ∈ build_acls_dhcp od.key true in6_lla od.ports
        (od.pg_acls.foldl (fun l acl => consider_acl l od.key acl true)
          (od.acls.foldl (fun l acl => consider_acl l od.key acl true)
            (acl_base_flows od.key))) := by
      by_cases hdns : od.has_dns_records
      · rw [if_pos hdns] at hf
        unfold ovn_lflow_add_at at hf
        rcases List.mem_cons.mp hf with rfl | hf
        · simp at hp
        · exact hf
      · rw [if_neg hdns] at hf
        exact hf
    rcases build_acls_dhcp_mem od.key true in6_lla od.ports _ f hcore
      with hin | ⟨_, _, h34⟩
    swap
    · omega
    rcases foldl_consider_mem od.key true od.pg_acls _ f hin
      with hin2 | ⟨acl, hacl, _, _, hpr⟩
    swap
    · have := hpri acl (Or.inr hacl)
      rcases hpr with h | ⟨_, h⟩ <;> omega
    rcases foldl_consider_mem od.key true od.acls _ f hin2
      with hin3 | ⟨acl, hacl, _, _, hpr⟩
    swap
    · have := hpri acl (Or.inl hacl)
      rcases hpr with h | ⟨_, h⟩ <;> omega
    unfold acl_base_flows at hin3
    simp only [List.mem_cons, List.not_mem_nil, or_false] at hin3
    rcases hin3 with rfl | rfl | rfl | rfl | rfl | rfl | rfl | rfl | rfl | rfl | rfl | rfl
    · exact Or.inr (Or.inr (Or.inr (Or.inr (Or.inr (Or.inr (Or.inr rfl))))))
    · exact Or.inr (Or.inr (Or.inr (Or.inl rfl)))
    · exact Or.inr (Or.inr (Or.inr (Or.inr (Or.inr (Or.inr (Or.inl rfl))))))
    · exact Or.inr (Or.inr (Or.inl rfl))
    · exact Or.inr (Or.inr (Or.inr (Or.inr (Or.inr (Or.inl rfl)))))
    · exact Or.inr (Or.inl rfl)
    · exact Or.inr (Or.inr (Or.inr (Or.inr (Or.inl rfl))))
    · exact Or.inl rfl
    · simp at hp
    · simp at hp
    · simp at hp
    · simp at hp
  · have hbase : ∀ g, g ∈ acl_base_flows od.key →
        g ∈ build_acls in6_lla od [] := by
      intro g hg
      rw [hsp]
      have hA := foldl_consider_acc od.key true od.acls (acl_base_flows od.key)
        g hg
      have hB := foldl_consider_acc od.key true od.pg_acls _ g hA
      have hC := build_acls_dhcp_acc od.key true in6_lla od.ports _ g hB
      by_cases hdns : od.has_dns_records
      · rw [if_pos hdns]
        unfold ovn_lflow_add_at
        exact List.mem_cons_of_mem _ hC
      · rw [if_neg hdns]
        exact hC
    refine ⟨?_, ?_, ?_, ?_, ?_, ?_, ?_, ?_⟩ <;>
      refine hbase _ ?_ <;>
      unfold acl_base_flows <;>
      simp only [List.mem_cons, List.not_mem_nil, or_false]
    · exact Or.inr (Or.inr (Or.inr (Or.inr (Or.inr (Or.inr (Or.inr (Or.inl rfl)))))))
    · exact Or.inr (Or.inr (Or.inr (Or.inr (Or.inr (Or.inl rfl)))))
    · exact Or.inr (Or.inr (Or.inr (Or.inl rfl)))
    · exact Or.inr (Or.inl rfl)
    · exact Or.inr (Or.inr (Or.inr (Or.inr (Or.inr (Or.inr (Or.inl rfl))))))
    · exact Or.inr (Or.inr (Or.inr (Or.inr (Or.inl rfl))))
    · exact Or.inr (Or.inr (Or.inl rfl))
    · exact Or.inl rfl
  · intro acl _ f hf
    rcases consider_acl_mem [] od.key acl (has_stateful_acl od) f hf
      with h | ⟨_, _, hpr⟩
    · exact absurd h (List.not_mem_nil f)
    · exact hpr
  · intro acl hacl hv
    rcases hacl with hacl | hacl
    · obtain ⟨f, hf, ho, hp⟩ := foldl_consider_contains od.key true od.acls
        (acl_base_flows od.key) acl hacl hv
      have hB := foldl_consider_acc od.key true od.pg_acls _ f hf
      have hC := build_acls_dhcp_acc od.key true in6_lla od.ports _ f hB
      refine ⟨f, ?_, ho, hp⟩
      rw [hsp]
      by_cases hdns : od.has_dns_records
      · rw [if_pos hdns]
        unfold ovn_lflow_add_at
        exact List.mem_cons_of_mem _ hC
      · rw [if_neg hdns]
        exact hC
    · obtain ⟨f, hf, ho, hp⟩ := foldl_consider_contains od.key true od.pg_acls
        (od.acls.foldl (fun l a => consider_acl l od.key a true)
          (acl_base_flows od.key)) acl hacl hv
      have hC := build_acls_dhcp_acc od.key true in6_lla od.ports _ f hf
      refine ⟨f, ?_, ho, hp⟩
      rw [hsp]
      by_cases hdns : od.has_dns_records
      · rw [if_pos hdns]
        unfold ovn_lflow_add_at
        exact List.mem_cons_of_mem _ hC
      · rw [if_neg hdns]
        exact hC

/-- C8 (counterexample): for a concrete stateful switch (one
allow-related ACL, one reject ACL at nb priority 100) the ingress acl
stage holds exactly FOUR 65535-priority rules, not five; and the reject
ACL is translated with TCP flows at priority 1110 = 100 + 1000 + 10,
not at 100 + 1000. -/
theorem build_acls_not_five_rules :
    (((build_acls (fun s => s)
        ⟨5,
          [⟨"from-lport", 2000, "ip4.src==10.0.0.10", "allow-related",
            false, none, none, none⟩,
           ⟨"to-lport", 100, "udp", "reject", false, none, none, none⟩],
          [], [], false⟩ []).filter
      (fun f => f.stage == S_SWITCH_IN_ACL && f.priority == 65535)).length
        = 4) ∧
    ((consider_acl [] 5
        ⟨"to-lport", 100, "udp", "reject", false, none, none, none⟩
        true).any (fun f => f.priority == 1110) = true) := by
  constructor
  · decide
  · decide

/-- Witness: the amended C8 theorem applied to the same concrete
switch. -/
theorem build_acls_stateful_rules_witness :
    (has_stateful_acl
        ⟨5,
          [⟨"from-lport", 2000, "ip4.src==10.0.0.10", "allow-related",
            false, none, none, none⟩,
           ⟨"to-lport", 100, "udp", "reject", false, none, none, none⟩],
          [], [], false⟩ = true) ∧
    (acl_invalid_drop 5 S_SWITCH_IN_ACL ∈
      build_acls (fun s => s)
        ⟨5,
          [⟨"from-lport", 2000, "ip4.src==10.0.0.10", "allow-related",
            false, none, none, none⟩,
           ⟨"to-lport", 100, "udp", "reject", false, none, none, none⟩],
          [], [], false⟩ []) :=
  ⟨by decide,
    ((build_acls_stateful_rules (fun s => s)
      ⟨5,
        [⟨"from-lport", 2000, "ip4.src==10.0.0.10", "allow-related",
          false, none, none, none⟩,
         ⟨"to-lport", 100, "udp", "reject", false, none, none, none⟩],
        [], [], false⟩ (by decide)
      (by intro acl h
          rcases h with h | h
          · rcases List.mem_cons.mp h with rfl | h
            · decide
            · rcases List.mem_cons.mp h with rfl | h
              · decide
              · exact absurd h (List.not_mem_nil acl)
          · exact absurd h (List.not_mem_nil acl))).2.1).1⟩

/-! ## Port peering sweep (`join_logical_ports`, ovn-northd.c lines
2113-2171)

The sweep walks every in-memory port once and links peers by name.
Peer pointers are modelled as a name-indexed map
`String → Option String` (the in-memory graph uses raw pointers; the
map records, for each port name, the name of the port its `peer` field
points to, all pointers starting out NULL). -/

/-- Northbound switch-port columns the sweep reads: `type` (`lsp_type`
here; `type` is reserved in Lean) and `options:router-port`. -/
structure NbspPeer where
  lsp_type : String
  router_port : Option String
  deriving DecidableEq, Repr

/-- Northbound router-port column the sweep reads: `peer`. -/
structure NbrpPeer where
  peer : Option String
  deriving DecidableEq, Repr

structure JoinPort where
  name : String
  nbsp : Option NbspPeer
  nbrp : Option NbrpPeer
  derived : Bool
  deriving DecidableEq, Repr

def join_port_find (ports : List JoinPort) (name : String) :
    Option JoinPort :=
  ports.find? (fun p => p.name == name)

/-- One iteration of the peering sweep for port `op`:
`if (op->nbsp && !strcmp(op->nbsp->type, "router") && !op->derived)`
pairs a switch port of type "router" with the router port named by
`options:router-port`, writing BOTH pointers
(`peer->peer = op; op->peer = peer;`);
`else if (op->nbrp && op->nbrp->peer && !op->derived)` pairs a router
port with the port named by its `peer` column, writing only `op->peer`
(a switch-port target only warns). -/
def join_peering_step (ports : List JoinPort)
    (peers : String → Option String) (op : JoinPort) :
    String → Option String :=
  if (match op.nbsp with
      | some nbsp => nbsp.lsp_type == "router"
      | none => false) && !op.derived then
    match op.nbsp with
    | none => peers
    | some nbsp =>
      match nbsp.router_port with
      | none => peers
      | some peer_name =>
        match join_port_find ports peer_name with
        | none => peers
        | some peer =>
          if peer.nbrp.isSome then
            fun n =>
              if n == op.name then some peer.name
              else if n == peer.name then some op.name
              else peers n
          else peers
  else if (match op.nbrp with
      | some nbrp => nbrp.peer.isSome
      | none => false) && !op.derived then
    match op.nbrp with
    | none => peers
    | some nbrp =>
      match nbrp.peer with
      | none => peers
      | some peer_name =>
        match join_port_find ports peer_name with
        | none => peers
        | some peer =>
          if peer.nbrp.isSome then
            fun n => if n == op.name then some peer.name else peers n
          else peers
  else peers

def join_peering (ports : List JoinPort) : String → Option String :=
  ports.foldl (join_peering_step ports) (fun _ => none)

/-- The peer-pointer writes the sweep performs for one port, in write
order: the switch-router pairing writes `(peer, op)` then `(op, peer)`;
the router-router pairing writes only `(op, peer)`. -/
def join_peering_step_writes (ports : List JoinPort) (op : JoinPort) :
    List (String × String) :=
  if (match op.nbsp with
      | some nbsp => nbsp.lsp_type == "router"
      | none => false) && !op.derived then
    match op.nbsp with
    | none => []
    | some nbsp =>
      match nbsp.router_port with
      | none => []
      | some peer_name =>
        match join_port_find ports peer_name with
        | none => []
        | some peer =>
          if peer.nbrp.isSome then [(peer.name, op.name), (op.name, peer.name)]
          else []
  else if (match op.nbrp with
      | some nbrp => nbrp.peer.isSome
      | none => false) && !op.derived then
    match op.nbrp with
    | none => []
    | some nbrp =>
      match nbrp.peer with
      | none => []
      | some peer_name =>
        match join_port_find ports peer_name with
        | none => []
        | some peer => if peer.nbrp.isSome then [(op.name, peer.name)] else []
  else []

def join_peering_writes (ports : List JoinPort) : List (String × String) :=
  ports.foldl (fun evs op => evs ++ join_peering_step_writes ports op) []

/-- Apply a write list (later writes win) to the all-NULL peer map. -/
def apply_writes (evs : List (String × String)) (m : String → Option String) :
    String → Option String :=
  evs.foldl (fun m e => fun n => if n == e.1 then some e.2 else m n) m

theorem join_peering_step_eq_writes (ports : List JoinPort)
    (peers : String → Option String) (op : JoinPort) :
    join_peering_step ports peers op =
      apply_writes (join_peering_step_writes ports op) peers := by
  unfold join_peering_step join_peering_step_writes apply_writes
  by_cases h1 : ((match op.nbsp with
      | some nbsp => nbsp.lsp_type == "router"
      | none => false) && !op.derived) = true
  · rw [if_pos h1, if_pos h1]
    cases op.nbsp with
    | none => rfl
    | some nbsp =>
      dsimp only
      cases nbsp.router_port with
      | none => rfl
      | some peer_name =>
        dsimp only
        cases join_port_find ports peer_name with
        | none => rfl
        | some peer =>
          dsimp only
          by_cases h2 : peer.nbrp.isSome
          · rw [if_pos h2, if_pos h2]
            rfl
          · rw [if_neg h2, if_neg h2]
            rfl
  · rw [if_neg h1, if_neg h1]
    by_cases h2 : ((match op.nbrp with
        | some nbrp => nbrp.peer.isSome
        | none => false) && !op.derived) = true
    · rw [if_pos h2, if_pos h2]
      cases op.nbrp with
      | none => rfl
      | some nbrp =>
        dsimp only
        cases nbrp.peer with
        | none => rfl
        | some peer_name =>
          dsimp only
          cases join_port_find ports peer_name with
          | none => rfl
          | some peer =>
            dsimp only
            by_cases h3 : peer.nbrp.isSome
            · rw [if_pos h3, if_pos h3]
              rfl
            · rw [if_neg h3, if_neg h3]
              rfl
    · rw [if_neg h2, if_neg h2]
      rfl

theorem apply_writes_append (evs1 evs2 : List (String × String))
    (m : String → Option String) :
    apply_writes (evs1 ++ evs2) m = apply_writes evs2 (apply_writes evs1 m) := by
  unfold apply_writes
  rw [List.foldl_append]

theorem join_peering_eq_writes (ports : List JoinPort) :
    join_peering ports =
      apply_writes (join_peering_writes ports) (fun _ => none) := by
  unfold join_peering join_peering_writes
  have key : ∀ (l : List JoinPort) (m : String → Option String)
      (evs : List (String × String)),
      l.foldl (join_peering_step ports) (apply_writes evs m) =
        apply_writes (l.foldl (fun evs op =>
          evs ++ join_peering_step_writes ports op) evs) m := by
    intro l
    induction l with
    | nil => intro m evs; rfl
    | cons op rest ih =>
      intro m evs
      simp only [List.foldl_cons]
      rw [join_peering_step_eq_writes, ← apply_writes_append]
      exact ih m (evs ++ join_peering_step_writes ports op)
  have h0 : (fun _ => (none : Option String)) =
      apply_writes [] (fun _ => none) := rfl
  rw [h0, key ports (fun _ => none) []]
  rfl

/-- Last-write-wins characterization of `apply_writes`. -/
theorem apply_writes_lookup :
    ∀ (evs : List (String × String)) (m : String → Option String)
      (k : String),
      apply_writes evs m k =
        (match evs.reverse.find? (fun e => e.1 == k) with
         | some e => some e.2
         | none => m k) := by
  intro evs
  induction evs with
  | nil => intro m k; rfl
  | cons e rest ih =>
    intro m k
    have hstep : apply_writes (e :: rest) m =
        apply_writes rest (fun n => if n == e.1 then some e.2 else m n) := rfl
    rw [hstep, ih]
    simp only [List.reverse_cons]
    rw [List.find?_append]
    cases hfind : rest.reverse.find? (fun e => e.1 == k) with
    | some r => rfl
    | none =>
      simp only [Option.none_or]
      by_cases hk : (e.1 == k) = true
      · have hk2 : (k == e.1) = true := by
          rw [eq_of_beq hk]
          exact beq_self_eq_true k
        simp [List.find?_cons, hk, hk2]
      · have hk1 : (e.1 == k) = false := by
          cases h : e.1 == k
          · rfl
          · exact absurd h hk
        have hk2 : (k == e.1) = false := by
          cases h : k == e.1
          · rfl
          · rw [eq_of_beq h] at hk1
            rw [beq_self_eq_true] at hk1
            exact Bool.noConfusion hk1
        simp [List.find?_cons, hk1, hk2]

theorem mem_of_apply_writes (evs : List (String × String)) (k v : String)
    (h : apply_writes evs (fun _ => none) k = some v) : (k, v) ∈ evs := by
  rw [apply_writes_lookup] at h
  cases hfind : evs.reverse.find? (fun e => e.1 == k) with
  | none => rw [hfind] at h; exact Option.noConfusion h
  | some e =>
    rw [hfind] at h
    have hmem : e ∈ evs := List.mem_reverse.mp (List.mem_of_find?_eq_some hfind)
    have hk : e.1 = k := eq_of_beq (by have h := List.find?_some hfind; exact h)
    have hv : e.2 = v := Option.some.inj h
    have : e = (k, v) := Prod.ext hk hv
    exact this ▸ hmem

theorem apply_writes_of_mem_nodup (evs : List (String × String))
    (hnd : (evs.map Prod.fst).Nodup) (k v : String)
    (hmem : (k, v) ∈ evs) : apply_writes evs (fun _ => none) k = some v := by
  rw [apply_writes_lookup]
  have hsome : (evs.reverse.find? (fun e => e.1 == k)).isSome :=
    List.find?_isSome.mpr
      ⟨(k, v), List.mem_reverse.mpr hmem, beq_self_eq_true k⟩
  obtain ⟨e, hfind⟩ := Option.isSome_iff_exists.mp hsome
  rw [hfind]
  have hemem : e ∈ evs := List.mem_reverse.mp (List.mem_of_find?_eq_some hfind)
  have hk : e.1 = k := eq_of_beq (by have h := List.find?_some hfind; exact h)
  have : e = (k, v) :=
    List.inj_on_of_nodup_map hnd hemem hmem (by rw [hk])
  rw [this]

/-- C3 (counterexample): the post-join peering sweep does not make peer
links symmetric.  Router port "A" has `peer = "B"` while router port
"B" has no peer column: after the sweep A's peer points to B but B's
peer is still NULL. -/
theorem join_peering_asymmetric :
    join_peering
        [⟨"A", none, some ⟨some "B"⟩, false⟩,
         ⟨"B", none, some ⟨none⟩, false⟩] "A" = some "B" ∧
    join_peering
        [⟨"A", none, some ⟨some "B"⟩, false⟩,
         ⟨"B", none, some ⟨none⟩, false⟩] "B" = none := by
  constructor
  · rfl
  · rfl

/-- C3 (amended): the peer links established by the sweep are symmetric
provided every peer-pointer write the sweep performs is matched by the
mirror write and no port's peer is written twice — that is, each router
port is named by `options:router-port` of at most one switch port of
type "router", such a router port has no `peer` column of its own, and
the `peer` columns of directly connected router ports name each other
mutually.  (A switch-router pairing writes both directions itself; a
router-router pairing writes only its own side, so symmetry there needs
the mirror write from the partner's sweep step.) -/
theorem join_peering_symmetric (ports : List JoinPort)
    (hkeys : ((join_peering_writes ports).map Prod.fst).Nodup)
    (hsym : ∀ e, e ∈ join_peering_writes ports →
      (e.2, e.1) ∈ join_peering_writes ports)
    (a b : String) (hab : join_peering ports a = some b) :
    join_peering ports b = some a := by
  rw [join_peering_eq_writes] at hab ⊢
  have h1 : (a, b) ∈ join_peering_writes ports :=
    mem_of_apply_writes _ _ _ hab
  have h2 := hsym (a, b) h1
  exact apply_writes_of_mem_nodup _ hkeys _ _ h2

/-- Witness: the amended C3 theorem on a mutually configured pair of
router ports. -/
theorem join_peering_symmetric_witness :
    ((((join_peering_writes
        [⟨"A", none, some ⟨some "B"⟩, false⟩,
         ⟨"B", none, some ⟨some "A"⟩, false⟩]).map Prod.fst).Nodup) ∧
      (∀ e, e ∈ join_peering_writes
          [⟨"A", none, some ⟨some "B"⟩, false⟩,
           ⟨"B", none, some ⟨some "A"⟩, false⟩] →
        (e.2, e.1) ∈ join_peering_writes
          [⟨"A", none, some ⟨some "B"⟩, false⟩,
           ⟨"B", none, some ⟨some "A"⟩, false⟩]) ∧
      join_peering
        [⟨"A", none, some ⟨some "B"⟩, false⟩,
         ⟨"B", none, some ⟨some "A"⟩, false⟩] "A" = some "B") ∧
    join_peering
      [⟨"A", none, some ⟨some "B"⟩, false⟩,
       ⟨"B", none, some ⟨some "A"⟩, false⟩] "B" = some "A" :=
  ⟨⟨by decide, by decide, by decide⟩,
    join_peering_symmetric
      [⟨"A", none, some ⟨some "B"⟩, false⟩,
       ⟨"B", none, some ⟨some "A"⟩, false⟩]
      (by decide) (by decide) "A" "B" (by decide)⟩

/-! ## Datapath and port join: tunnel-key stability
(`join_datapaths` lines 940-1030, `build_datapaths` lines 1044-1080,
`join_logical_ports` lines 1923-2060, `build_ports` lines 2944-3012 of
ovn-northd.c)

The datapath join is modelled in full (malformed/duplicate southbound
rows, switch and enabled-router matching by UUID).  The port join is
modelled for the ports of one logical datapath, by name, eliding the
address parsing, tag allocation and chassis-redirect synthesis that do
not touch tunnel keys; UUIDs are `Nat`s. -/

/-- `allocate_tnlid`'s loop only ever returns a free id. -/
theorem allocate_tnlid_loop_free (tnlids : List Nat) (hint mn mx : Nat) :
    ∀ (fuel t r : Nat),
      allocate_tnlid_loop tnlids hint mn mx t fuel = some r →
      tnlid_in_use tnlids r = false := by
  intro fuel
  induction fuel with
  | zero => intro t r h; exact Option.noConfusion h
  | succ fuel ih =>
    intro t r h
    unfold allocate_tnlid_loop at h
    by_cases h1 : t = hint
    · rw [if_pos h1] at h
      exact Option.noConfusion h
    · rw [if_neg h1] at h
      by_cases h2 : tnlid_in_use tnlids t
      · rw [if_pos h2] at h
        exact ih _ r h
      · rw [if_neg h2] at h
        cases h2b : tnlid_in_use tnlids t
        · rw [← Option.some.inj h]
          exact h2b
        · exact absurd h2b h2

/-- A successful `allocate_tnlid` returns a fresh id and inserts it. -/
theorem allocate_tnlid_fresh (a : TnlAlloc) (mn mx : Nat) :
    (allocate_tnlid a mn mx).1 ≠ 0 →
      tnlid_in_use a.tnlids (allocate_tnlid a mn mx).1 = false ∧
      (allocate_tnlid a mn mx).2.tnlids =
        (allocate_tnlid a mn mx).1 :: a.tnlids := by
  unfold allocate_tnlid
  cases hl : allocate_tnlid_loop a.tnlids a.hint mn mx
      (next_tnlid a.hint mn mx) (mx + 2 - mn) with
  | none => intro h; exact absurd rfl h
  | some t =>
    intro _
    exact ⟨allocate_tnlid_loop_free a.tnlids a.hint mn mx _ _ t hl, rfl⟩

/-- Southbound Datapath_Binding columns the join reads: the row
identity, the parsed `external-ids:logical-switch`/`logical-router`
UUID (`none` when both are missing, i.e. the row is malformed) and the
tunnel key. -/
structure SbDatapathRow where
  row : Nat
  ext_key : Option Nat
  tunnel_key : Nat
  deriving DecidableEq, Repr

structure NbSwitchRow where
  uuid : Nat
  deriving DecidableEq, Repr

structure NbRouterRow where
  uuid : Nat
  enabled : Option Bool
  deriving DecidableEq, Repr

def lrouter_is_enabled (r : NbRouterRow) : Bool :=
  match r.enabled with
  | none => true
  | some b => b

/-- The `struct ovn_datapath` fields the key assignment depends on:
its UUID key, whether northbound switch/router counterparts were found
(`od->nbs`/`od->nbr` non-NULL), and its southbound row if any. -/
structure OvnDatapathJ where
  key : Nat
  nbs : Bool
  nbr : Bool
  sb : Option SbDatapathRow
  deriving DecidableEq, Repr

def ovn_datapath_find (dps : List OvnDatapathJ) (key : Nat) :
    Option OvnDatapathJ :=
  dps.find? (fun od => od.key == key)

/-- Mark the first datapath with the given key as having a northbound
switch (`od->nbs = nbs`). -/
def dp_set_nbs : List OvnDatapathJ → Nat → List OvnDatapathJ
  | [], _ => []
  | od :: rest, key =>
    if od.key == key then { od with nbs := true } :: rest
    else od :: dp_set_nbs rest key

/-- Mark the first datapath with the given key as having a northbound
router (`od->nbr = nbr`). -/
def dp_set_nbr : List OvnDatapathJ → Nat → List OvnDatapathJ
  | [], _ => []
  | od :: rest, key =>
    if od.key == key then { od with nbr := true } :: rest
    else od :: dp_set_nbr rest key

/-- `join_datapaths`: southbound rows first (malformed rows and rows
with a duplicate logical identity are deleted, i.e. produce no
datapath), then northbound switches, then enabled northbound routers.
A router whose UUID already carries a switch would be a northbound
duplicate and is skipped with a warning. -/
def join_dp_sb_step (dps : List OvnDatapathJ) (r : SbDatapathRow) :
    List OvnDatapathJ :=
  match r.ext_key with
  | none => dps
  | some key =>
    match ovn_datapath_find dps key with
    | some _ => dps
    | none => dps ++ [⟨key, false, false, some r⟩]

def join_dp_switch_step (dps : List OvnDatapathJ) (s : NbSwitchRow) :
    List OvnDatapathJ :=
  match ovn_datapath_find dps s.uuid with
  | some _ => dp_set_nbs dps s.uuid
  | none => dps ++ [⟨s.uuid, true, false, none⟩]

def join_dp_router_step (dps : List OvnDatapathJ) (r : NbRouterRow) :
    List OvnDatapathJ :=
  if ¬ lrouter_is_enabled r then dps
  else
    match ovn_datapath_find dps r.uuid with
    | some od =>
      if ¬ od.nbs then dp_set_nbr dps r.uuid
      else dps
    | none => dps ++ [⟨r.uuid, false, true, none⟩]

def join_datapaths (sb_rows : List SbDatapathRow)
    (switches : List NbSwitchRow) (routers : List NbRouterRow) :
    List OvnDatapathJ :=
  routers.foldl join_dp_router_step
    (switches.foldl join_dp_switch_step
      (sb_rows.foldl join_dp_sb_step []))

def ovn_datapath_allocate_key (a : TnlAlloc) : Nat × TnlAlloc :=
  allocate_tnlid a 1 ((1 <<< 24) - 1)

/-- The tunnel keys of the `both` bucket, indexed into `dp_tnlids`
before fresh keys are handed out. -/
def dp_both_keys (dps : List OvnDatapathJ) : List Nat :=
  (dps.filter (fun od => od.sb.isSome && (od.nbs || od.nbr))).filterMap
    (fun od => od.sb.map (fun s => s.tunnel_key))

/-- One datapath of `build_datapaths`' output pass: a `both` datapath
keeps its southbound row untouched, an `sb_only` datapath's row is
deleted, and an `nb_only` datapath gets a fresh row and key unless a
previous allocation failure broke out of the assignment loop. -/
def build_dp_step (st : List OvnDatapathJ × TnlAlloc × Bool)
    (od : OvnDatapathJ) : List OvnDatapathJ × TnlAlloc × Bool :=
  match od.sb with
  | some _ =>
    if od.nbs || od.nbr then (st.1 ++ [od], st.2.1, st.2.2)
    else (st.1, st.2.1, st.2.2)
  | none =>
    if st.2.2 then
      let r := ovn_datapath_allocate_key st.2.1
      if r.1 = 0 then (st.1 ++ [od], st.2.1, false)
      else (st.1 ++ [{ od with sb := some ⟨od.key, some od.key, r.1⟩ }],
        r.2, st.2.2)
    else (st.1 ++ [od], st.2.1, st.2.2)

def build_datapaths (sb_rows : List SbDatapathRow)
    (switches : List NbSwitchRow) (routers : List NbRouterRow) :
    List OvnDatapathJ :=
  let dps := join_datapaths sb_rows switches routers
  (dps.foldl build_dp_step ([], ⟨dp_both_keys dps, 0⟩, true)).1

theorem foldl_preserve {α β : Type} (P : β → Prop) (f : β → α → β)
    (h : ∀ b a, P b → P (f b a)) :
    ∀ (l : List α) (b : β), P b → P (l.foldl f b) := by
  intro l
  induction l with
  | nil => intro b hb; exact hb
  | cons a rest ih =>
    intro b hb
    exact ih (f b a) (h b a hb)

theorem ovn_datapath_find_none (dps : List OvnDatapathJ) (k : Nat) :
    ovn_datapath_find dps k = none ↔ ∀ od, od ∈ dps → od.key ≠ k := by
  unfold ovn_datapath_find
  rw [List.find?_eq_none]
  constructor
  · intro h od hod hk
    have := h od hod
    rw [hk] at this
    rw [beq_self_eq_true] at this
    exact this rfl
  · intro h od hod hk
    exact h od hod (eq_of_beq hk)

/-- The sb-row key of a datapath present in the join state. -/
def dp_has (dps : List OvnDatapathJ) (k : Nat) (r : SbDatapathRow) : Prop :=
  ∃ od, od ∈ dps ∧ od.key = k ∧ od.sb = some r

def dp_has_nb (dps : List OvnDatapathJ) (k : Nat) (r : SbDatapathRow) : Prop :=
  ∃ od, od ∈ dps ∧ od.key = k ∧ od.sb = some r ∧ (od.nbs || od.nbr) = true

theorem dp_set_nbs_keys (dps : List OvnDatapathJ) (k : Nat) :
    (dp_set_nbs dps k).map (fun od => od.key) =
      dps.map (fun od => od.key) := by
  induction dps with
  | nil => rfl
  | cons od rest ih =>
    unfold dp_set_nbs
    by_cases h : (od.key == k) = true
    · rw [if_pos h]
      rfl
    · rw [if_neg h]
      simp only [List.map_cons, ih]

theorem dp_set_nbr_keys (dps : List OvnDatapathJ) (k : Nat) :
    (dp_set_nbr dps k).map (fun od => od.key) =
      dps.map (fun od => od.key) := by
  induction dps with
  | nil => rfl
  | cons od rest ih =>
    unfold dp_set_nbr
    by_cases h : (od.key == k) = true
    · rw [if_pos h]
      rfl
    · rw [if_neg h]
      simp only [List.map_cons, ih]

theorem dp_set_nbs_has (dps : List OvnDatapathJ) (k2 k : Nat)
    (r : SbDatapathRow) (h : dp_has dps k r) :
    dp_has (dp_set_nbs dps k2) k r := by
  obtain ⟨od, hmem, hk, hsb⟩ := h
  induction dps with
  | nil => exact absurd hmem (List.not_mem_nil od)
  | cons hd rest ih =>
    unfold dp_set_nbs
    by_cases hh : (hd.key == k2) = true
    · rw [if_pos hh]
      rcases List.mem_cons.mp hmem with rfl | htl
      · exact ⟨{ od with nbs := true }, List.mem_cons_self _ _, hk, hsb⟩
      · exact ⟨od, List.mem_cons_of_mem _ htl, hk, hsb⟩
    · rw [if_neg hh]
      rcases List.mem_cons.mp hmem with rfl | htl
      · exact ⟨od, List.mem_cons_self _ _, hk, hsb⟩
      · obtain ⟨od2, hmem2, hk2, hsb2⟩ := ih htl
        exact ⟨od2, List.mem_cons_of_mem _ hmem2, hk2, hsb2⟩

theorem dp_set_nbr_has (dps : List OvnDatapathJ) (k2 k : Nat)
    (r : SbDatapathRow) (h : dp_has dps k r) :
    dp_has (dp_set_nbr dps k2) k r := by
  obtain ⟨od, hmem, hk, hsb⟩ := h
  induction dps with
  | nil => exact absurd hmem (List.not_mem_nil od)
  | cons hd rest ih =>
    unfold dp_set_nbr
    by_cases hh : (hd.key == k2) = true
    · rw [if_pos hh]
      rcases List.mem_cons.mp hmem with rfl | htl
      · exact ⟨{ od with nbr := true }, List.mem_cons_self _ _, hk, hsb⟩
      · exact ⟨od, List.mem_cons_of_mem _ htl, hk, hsb⟩
    · rw [if_neg hh]
      rcases List.mem_cons.mp hmem with rfl | htl
      · exact ⟨od, List.mem_cons_self _ _, hk, hsb⟩
      · obtain ⟨od2, hmem2, hk2, hsb2⟩ := ih htl
        exact ⟨od2, List.mem_cons_of_mem _ hmem2, hk2, hsb2⟩

theorem dp_set_nbs_has_nb (dps : List OvnDatapathJ) (k2 k : Nat)
    (r : SbDatapathRow) (h : dp_has_nb dps k r) :
    dp_has_nb (dp_set_nbs dps k2) k r := by
  obtain ⟨od, hmem, hk, hsb, hfl⟩ := h
  induction dps with
  | nil => exact absurd hmem (List.not_mem_nil od)
  | cons hd rest ih =>
    unfold dp_set_nbs
    by_cases hh : (hd.key == k2) = true
    · rw [if_pos hh]
      rcases List.mem_cons.mp hmem with rfl | htl
      · exact ⟨{ od with nbs := true }, List.mem_cons_self _ _, hk, hsb, rfl⟩
      · exact ⟨od, List.mem_cons_of_mem _ htl, hk, hsb, hfl⟩
    · rw [if_neg hh]
      rcases List.mem_cons.mp hmem with rfl | htl
      · exact ⟨od, List.mem_cons_self _ _, hk, hsb, hfl⟩
      · obtain ⟨od2, hmem2, hk2, hsb2, hfl2⟩ := ih htl
        exact ⟨od2, List.mem_cons_of_mem _ hmem2, hk2, hsb2, hfl2⟩

theorem dp_set_nbr_has_nb (dps : List OvnDatapathJ) (k2 k : Nat)
    (r : SbDatapathRow) (h : dp_has_nb dps k r) :
    dp_has_nb (dp_set_nbr dps k2) k r := by
  obtain ⟨od, hmem, hk, hsb, hfl⟩ := h
  induction dps with
  | nil => exact absurd hmem (List.not_mem_nil od)
  | cons hd rest ih =>
    unfold dp_set_nbr
    by_cases hh : (hd.key == k2) = true
    · rw [if_pos hh]
      rcases List.mem_cons.mp hmem with rfl | htl
      · refine ⟨{ od with nbr := true }, List.mem_cons_self _ _, hk, hsb, ?_⟩
        simp
      · exact ⟨od, List.mem_cons_of_mem _ htl, hk, hsb, hfl⟩
    · rw [if_neg hh]
      rcases List.mem_cons.mp hmem with rfl | htl
      · exact ⟨od, List.mem_cons_self _ _, hk, hsb, hfl⟩
      · obtain ⟨od2, hmem2, hk2, hsb2, hfl2⟩ := ih htl
        exact ⟨od2, List.mem_cons_of_mem _ hmem2, hk2, hsb2, hfl2⟩

/-- With duplicate-free keys, updating key `k` reaches the datapath
that `dp_has` tracks. -/
theorem dp_set_nbs_establishes (dps : List OvnDatapathJ) (k : Nat)
    (r : SbDatapathRow) (hnd : (dps.map (fun od => od.key)).Nodup)
    (h : dp_has dps k r) : dp_has_nb (dp_set_nbs dps k) k r := by
  obtain ⟨od, hmem, hk, hsb⟩ := h
  induction dps with
  | nil => exact absurd hmem (List.not_mem_nil od)
  | cons hd rest ih =>
    simp only [List.map_cons] at hnd
    obtain ⟨hnd1, hnd2⟩ := List.nodup_cons.mp hnd
    unfold dp_set_nbs
    by_cases hh : (hd.key == k) = true
    · rw [if_pos hh]
      have hdk : hd.key = k := eq_of_beq hh
      rcases List.mem_cons.mp hmem with rfl | htl
      · exact ⟨{ od with nbs := true }, List.mem_cons_self _ _, hk, hsb, rfl⟩
      · have hmm : od.key ∈ rest.map (fun od => od.key) :=
          List.mem_map_of_mem (fun od => od.key) htl
        rw [hk, ← hdk] at hmm
        exact absurd hmm hnd1
    · rw [if_neg hh]
      rcases List.mem_cons.mp hmem with rfl | htl
      · rw [hk] at hh
        rw [beq_self_eq_true] at hh
        exact absurd rfl hh
      · obtain ⟨od2, hmem2, hk2, hsb2, hfl2⟩ := ih hnd2 htl
        exact ⟨od2, List.mem_cons_of_mem _ hmem2, hk2, hsb2, hfl2⟩

theorem dp_set_nbr_establishes (dps : List OvnDatapathJ) (k : Nat)
    (r : SbDatapathRow) (hnd : (dps.map (fun od => od.key)).Nodup)
    (h : dp_has dps k r) : dp_has_nb (dp_set_nbr dps k) k r := by
  obtain ⟨od, hmem, hk, hsb⟩ := h
  induction dps with
  | nil => exact absurd hmem (List.not_mem_nil od)
  | cons hd rest ih =>
    simp only [List.map_cons] at hnd
    obtain ⟨hnd1, hnd2⟩ := List.nodup_cons.mp hnd
    unfold dp_set_nbr
    by_cases hh : (hd.key == k) = true
    · rw [if_pos hh]
      have hdk : hd.key = k := eq_of_beq hh
      rcases List.mem_cons.mp hmem with rfl | htl
      · refine ⟨{ od with nbr := true }, List.mem_cons_self _ _, hk, hsb, ?_⟩
        simp
      · have hmm : od.key ∈ rest.map (fun od => od.key) :=
          List.mem_map_of_mem (fun od => od.key) htl
        rw [hk, ← hdk] at hmm
        exact absurd hmm hnd1
    · rw [if_neg hh]
      rcases List.mem_cons.mp hmem with rfl | htl
      · rw [hk] at hh
        rw [beq_self_eq_true] at hh
        exact absurd rfl hh
      · obtain ⟨od2, hmem2, hk2, hsb2, hfl2⟩ := ih hnd2 htl
        exact ⟨od2, List.mem_cons_of_mem _ hmem2, hk2, hsb2, hfl2⟩

theorem nodup_snoc {α : Type} (l : List α) (a : α) (h1 : l.Nodup)
    (h2 : a ∉ l) : (l ++ [a]).Nodup := by
  simp [List.nodup_append, h1, h2]

theorem ovn_datapath_find_of_has (dps : List OvnDatapathJ) (k : Nat)
    (r : SbDatapathRow) (h : dp_has dps k r) :
    ∃ od, ovn_datapath_find dps k = some od ∧ od ∈ dps ∧ od.key = k := by
  obtain ⟨od0, hm, hk, _⟩ := h
  have hsome : (dps.find? (fun od => od.key == k)).isSome :=
    List.find?_isSome.mpr ⟨od0, hm, by rw [hk]; exact beq_self_eq_true k⟩
  obtain ⟨od, hf⟩ := Option.isSome_iff_exists.mp hsome
  exact ⟨od, hf, List.mem_of_find?_eq_some hf,
    eq_of_beq (by have hp := List.find?_some hf; exact hp)⟩


theorem join_dp_sb_step_eq_skip (dps : List OvnDatapathJ)
    (r : SbDatapathRow) (h : r.ext_key = none) :
    join_dp_sb_step dps r = dps := by
  unfold join_dp_sb_step
  rw [h]

theorem join_dp_sb_step_eq_dup (dps : List OvnDatapathJ) (r : SbDatapathRow)
    (key : Nat) (od0 : OvnDatapathJ) (h : r.ext_key = some key)
    (hf : ovn_datapath_find dps key = some od0) :
    join_dp_sb_step dps r = dps := by
  unfold join_dp_sb_step
  rw [h]
  dsimp only
  rw [hf]

theorem join_dp_sb_step_eq_new (dps : List OvnDatapathJ) (r : SbDatapathRow)
    (key : Nat) (h : r.ext_key = some key)
    (hf : ovn_datapath_find dps key = none) :
    join_dp_sb_step dps r = dps ++ [⟨key, false, false, some r⟩] := by
  unfold join_dp_sb_step
  rw [h]
  dsimp only
  rw [hf]

/-- The southbound phase only appends datapaths. -/
theorem join_dp_sb_step_grow (dps : List OvnDatapathJ) (r : SbDatapathRow)
    (od : OvnDatapathJ) (h : od ∈ dps) : od ∈ join_dp_sb_step dps r := by
  cases hek : r.ext_key with
  | none => rw [join_dp_sb_step_eq_skip dps r hek]; exact h
  | some key =>
    cases hf : ovn_datapath_find dps key with
    | some od0 => rw [join_dp_sb_step_eq_dup dps r key od0 hek hf]; exact h
    | none =>
      rw [join_dp_sb_step_eq_new dps r key hek hf]
      exact List.mem_append_left _ h

/-- Every datapath the southbound phase creates is keyed by some row's
parsed external-ids UUID. -/
theorem join_dp_sb_fold_origin :
    ∀ (l : List SbDatapathRow) (dps : List OvnDatapathJ) (od : OvnDatapathJ),
      od ∈ l.foldl join_dp_sb_step dps →
      od ∈ dps ∨ ∃ r, r ∈ l ∧ r.ext_key = some od.key := by
  intro l
  induction l with
  | nil => intro dps od h; exact Or.inl h
  | cons r rest ih =>
    intro dps od h
    simp only [List.foldl_cons] at h
    rcases ih _ od h with h1 | ⟨r2, hr2, hk2⟩
    · cases hek : r.ext_key with
      | none =>
        rw [join_dp_sb_step_eq_skip dps r hek] at h1
        exact Or.inl h1
      | some key =>
        cases hf : ovn_datapath_find dps key with
        | some od0 =>
          rw [join_dp_sb_step_eq_dup dps r key od0 hek hf] at h1
          exact Or.inl h1
        | none =>
          rw [join_dp_sb_step_eq_new dps r key hek hf] at h1
          rcases List.mem_append.mp h1 with h2 | h2
          · exact Or.inl h2
          · rcases List.mem_cons.mp h2 with rfl | h3
            · exact Or.inr ⟨r, List.mem_cons_self r rest, hek⟩
            · exact absurd h3 (List.not_mem_nil od)
    · exact Or.inr ⟨r2, List.mem_cons_of_mem r hr2, hk2⟩

theorem join_dp_sb_step_nodup (dps : List OvnDatapathJ) (r : SbDatapathRow)
    (h : (dps.map (fun od => od.key)).Nodup) :
    ((join_dp_sb_step dps r).map (fun od => od.key)).Nodup := by
  cases hek : r.ext_key with
  | none => rw [join_dp_sb_step_eq_skip dps r hek]; exact h
  | some key =>
    cases hf : ovn_datapath_find dps key with
    | some od0 => rw [join_dp_sb_step_eq_dup dps r key od0 hek hf]; exact h
    | none =>
      rw [join_dp_sb_step_eq_new dps r key hek hf, List.map_append]
      refine nodup_snoc _ _ h ?_
      intro hmem
      obtain ⟨od, hod, hk⟩ := List.mem_map.mp hmem
      exact (ovn_datapath_find_none dps key).mp hf od hod hk

/-- The first wellformed southbound row carrying key `k` survives the
southbound phase as the datapath with key `k`. -/
theorem join_dp_sb_fold_has (pre post : List SbDatapathRow)
    (r : SbDatapathRow) (k : Nat) (hek : r.ext_key = some k)
    (hpre : ∀ r2, r2 ∈ pre → r2.ext_key ≠ some k) :
    dp_has ((pre ++ r :: post).foldl join_dp_sb_step []) k r := by
  rw [List.foldl_append, List.foldl_cons]
  have hnone : ovn_datapath_find (pre.foldl join_dp_sb_step []) k = none := by
    rw [ovn_datapath_find_none]
    intro od hod hk
    rcases join_dp_sb_fold_origin pre [] od hod with h1 | ⟨r2, hr2, hk2⟩
    · exact absurd h1 (List.not_mem_nil od)
    · rw [hk] at hk2
      exact hpre r2 hr2 hk2
  rw [join_dp_sb_step_eq_new _ r k hek hnone]
  refine foldl_preserve (fun dps => dp_has dps k r) join_dp_sb_step ?_ post _ ?_
  · intro dps r2 hd
    obtain ⟨od, hm, hk, hsb⟩ := hd
    exact ⟨od, join_dp_sb_step_grow dps r2 od hm, hk, hsb⟩
  · exact ⟨⟨k, false, false, some r⟩,
      List.mem_append_right _ (List.mem_cons_self _ _), rfl, rfl⟩

theorem join_dp_switch_step_has (dps : List OvnDatapathJ) (s : NbSwitchRow)
    (k : Nat) (r : SbDatapathRow) (h : dp_has dps k r) :
    dp_has (join_dp_switch_step dps s) k r := by
  unfold join_dp_switch_step
  cases ovn_datapath_find dps s.uuid with
  | some _ => exact dp_set_nbs_has dps s.uuid k r h
  | none =>
    obtain ⟨od, hm, hk, hsb⟩ := h
    exact ⟨od, List.mem_append_left _ hm, hk, hsb⟩

theorem join_dp_switch_step_has_nb (dps : List OvnDatapathJ)
    (s : NbSwitchRow) (k : Nat) (r : SbDatapathRow) (h : dp_has_nb dps k r) :
    dp_has_nb (join_dp_switch_step dps s) k r := by
  unfold join_dp_switch_step
  cases ovn_datapath_find dps s.uuid with
  | some _ => exact dp_set_nbs_has_nb dps s.uuid k r h
  | none =>
    obtain ⟨od, hm, hk, hsb, hfl⟩ := h
    exact ⟨od, List.mem_append_left _ hm, hk, hsb, hfl⟩

theorem join_dp_router_step_has (dps : List OvnDatapathJ) (rt : NbRouterRow)
    (k : Nat) (r : SbDatapathRow) (h : dp_has dps k r) :
    dp_has (join_dp_router_step dps rt) k r := by
  unfold join_dp_router_step
  by_cases he : ¬ lrouter_is_enabled rt = true
  · rw [if_pos he]
    exact h
  · rw [if_neg he]
    cases ovn_datapath_find dps rt.uuid with
    | some od0 =>
      dsimp only
      by_cases hn : ¬ od0.nbs = true
      · rw [if_pos hn]
        exact dp_set_nbr_has dps rt.uuid k r h
      · rw [if_neg hn]
        exact h
    | none =>
      dsimp only
      obtain ⟨od, hm, hk, hsb⟩ := h
      exact ⟨od, List.mem_append_left _ hm, hk, hsb⟩

theorem join_dp_router_step_has_nb (dps : List OvnDatapathJ)
    (rt : NbRouterRow) (k : Nat) (r : SbDatapathRow) (h : dp_has_nb dps k r) :
    dp_has_nb (join_dp_router_step dps rt) k r := by
  unfold join_dp_router_step
  by_cases he : ¬ lrouter_is_enabled rt = true
  · rw [if_pos he]
    exact h
  · rw [if_neg he]
    cases ovn_datapath_find dps rt.uuid with
    | some od0 =>
      dsimp only
      by_cases hn : ¬ od0.nbs = true
      · rw [if_pos hn]
        exact dp_set_nbr_has_nb dps rt.uuid k r h
      · rw [if_neg hn]
        exact h
    | none =>
      dsimp only
      obtain ⟨od, hm, hk, hsb, hfl⟩ := h
      exact ⟨od, List.mem_append_left _ hm, hk, hsb, hfl⟩

theorem join_dp_switch_step_nodup (dps : List OvnDatapathJ)
    (s : NbSwitchRow) (h : (dps.map (fun od => od.key)).Nodup) :
    ((join_dp_switch_step dps s).map (fun od => od.key)).Nodup := by
  unfold join_dp_switch_step
  cases hf : ovn_datapath_find dps s.uuid with
  | some _ =>
    rw [dp_set_nbs_keys]
    exact h
  | none =>
    rw [List.map_append]
    refine nodup_snoc _ _ h ?_
    intro hmem
    obtain ⟨od, hod, hk⟩ := List.mem_map.mp hmem
    exact (ovn_datapath_find_none dps s.uuid).mp hf od hod hk

theorem join_dp_router_step_nodup (dps : List OvnDatapathJ)
    (rt : NbRouterRow) (h : (dps.map (fun od => od.key)).Nodup) :
    ((join_dp_router_step dps rt).map (fun od => od.key)).Nodup := by
  unfold join_dp_router_step
  by_cases he : ¬ lrouter_is_enabled rt = true
  · rw [if_pos he]
    exact h
  · rw [if_neg he]
    cases hf : ovn_datapath_find dps rt.uuid with
    | some od0 =>
      dsimp only
      by_cases hn : ¬ od0.nbs = true
      · rw [if_pos hn, dp_set_nbr_keys]
        exact h
      · rw [if_neg hn]
        exact h
    | none =>
      dsimp only
      rw [List.map_append]
      refine nodup_snoc _ _ h ?_
      intro hmem
      obtain ⟨od, hod, hk⟩ := List.mem_map.mp hmem
      exact (ovn_datapath_find_none dps rt.uuid).mp hf od hod hk

/-- A switch whose UUID matches a southbound-phase datapath flags that
datapath as `nb`-backed. -/
theorem join_dp_switch_step_establishes (dps : List OvnDatapathJ)
    (s : NbSwitchRow) (k : Nat) (r : SbDatapathRow) (hk : s.uuid = k)
    (hnd : (dps.map (fun od => od.key)).Nodup) (h : dp_has dps k r) :
    dp_has_nb (join_dp_switch_step dps s) k r := by
  unfold join_dp_switch_step
  obtain ⟨od, hf, _, _⟩ := ovn_datapath_find_of_has dps k r h
  rw [hk, hf]
  exact dp_set_nbs_establishes dps k r hnd h

/-- An enabled router whose UUID matches a southbound-phase datapath
flags that datapath as `nb`-backed (directly, or it was already
switch-flagged). -/
theorem join_dp_router_step_establishes (dps : List OvnDatapathJ)
    (rt : NbRouterRow) (k : Nat) (r : SbDatapathRow) (hk : rt.uuid = k)
    (hen : lrouter_is_enabled rt = true)
    (hnd : (dps.map (fun od => od.key)).Nodup) (h : dp_has dps k r) :
    dp_has_nb (join_dp_router_step dps rt) k r := by
  unfold join_dp_router_step
  rw [if_neg (fun hc => hc hen)]
  obtain ⟨od0, hf, hm0, hk0⟩ := ovn_datapath_find_of_has dps k r h
  rw [hk, hf]
  dsimp only
  by_cases hn : ¬ od0.nbs = true
  · rw [if_pos hn]
    exact dp_set_nbr_establishes dps k r hnd h
  · rw [if_neg hn]
    have hb : od0.nbs = true := by
      cases hq : od0.nbs
      · exact absurd (by rw [hq]; exact fun hx => Bool.noConfusion hx) hn
      · rfl
    obtain ⟨od, hm, hkod, hsb⟩ := h
    have heq : od = od0 :=
      List.inj_on_of_nodup_map hnd hm hm0 (by rw [hkod, hk0])
    refine ⟨od, hm, hkod, hsb, ?_⟩
    rw [heq, hb]
    rfl

/-- End-to-end through `join_datapaths`: the first wellformed
southbound row with key `k`, matched by a northbound switch or an
enabled northbound router, survives as a datapath carrying that very
row and a northbound flag. -/
theorem join_datapaths_has_nb (pre post : List SbDatapathRow)
    (switches : List NbSwitchRow) (routers : List NbRouterRow)
    (r : SbDatapathRow) (k : Nat) (hek : r.ext_key = some k)
    (hpre : ∀ r2, r2 ∈ pre → r2.ext_key ≠ some k)
    (hmatch : (∃ s, s ∈ switches ∧ s.uuid = k) ∨
      (∃ rt, rt ∈ routers ∧ rt.uuid = k ∧ lrouter_is_enabled rt = true)) :
    dp_has_nb (join_datapaths (pre ++ r :: post) switches routers) k r := by
  unfold join_datapaths
  have h0 : dp_has ((pre ++ r :: post).foldl join_dp_sb_step []) k r :=
    join_dp_sb_fold_has pre post r k hek hpre
  have hnd0 : ((((pre ++ r :: post).foldl join_dp_sb_step [])).map
      (fun od => od.key)).Nodup :=
    foldl_preserve (fun dps => (dps.map (fun od => od.key)).Nodup)
      join_dp_sb_step (fun b a hb => join_dp_sb_step_nodup b a hb)
      (pre ++ r :: post) [] (by simp)
  rcases hmatch with ⟨s, hs, hsk⟩ | ⟨rt, hrt, hrtk, hren⟩
  · obtain ⟨l1, l2, rfl⟩ := List.append_of_mem hs
    rw [List.foldl_append, List.foldl_cons]
    have h1 : dp_has (l1.foldl join_dp_switch_step
        ((pre ++ r :: post).foldl join_dp_sb_step [])) k r :=
      foldl_preserve (fun dps => dp_has dps k r) join_dp_switch_step
        (fun b a hb => join_dp_switch_step_has b a k r hb) l1 _ h0
    have hnd1 : (((l1.foldl join_dp_switch_step
        ((pre ++ r :: post).foldl join_dp_sb_step []))).map
        (fun od => od.key)).Nodup :=
      foldl_preserve (fun dps => (dps.map (fun od => od.key)).Nodup)
        join_dp_switch_step (fun b a hb => join_dp_switch_step_nodup b a hb)
        l1 _ hnd0
    have h2 := join_dp_switch_step_establishes _ s k r hsk hnd1 h1
    have h3 : dp_has_nb (l2.foldl join_dp_switch_step
        (join_dp_switch_step (l1.foldl join_dp_switch_step
          ((pre ++ r :: post).foldl join_dp_sb_step [])) s)) k r :=
      foldl_preserve (fun dps => dp_has_nb dps k r) join_dp_switch_step
        (fun b a hb => join_dp_switch_step_has_nb b a k r hb) l2 _ h2
    exact foldl_preserve (fun dps => dp_has_nb dps k r) join_dp_router_step
      (fun b a hb => join_dp_router_step_has_nb b a k r hb) routers _ h3
  · have h1 : dp_has (switches.foldl join_dp_switch_step
        ((pre ++ r :: post).foldl join_dp_sb_step [])) k r :=
      foldl_preserve (fun dps => dp_has dps k r) join_dp_switch_step
        (fun b a hb => join_dp_switch_step_has b a k r hb) switches _ h0
    have hnd1 : (((switches.foldl join_dp_switch_step
        ((pre ++ r :: post).foldl join_dp_sb_step []))).map
        (fun od => od.key)).Nodup :=
      foldl_preserve (fun dps => (dps.map (fun od => od.key)).Nodup)
        join_dp_switch_step (fun b a hb => join_dp_switch_step_nodup b a hb)
        switches _ hnd0
    obtain ⟨l1, l2, rfl⟩ := List.append_of_mem hrt
    rw [List.foldl_append, List.foldl_cons]
    have h2 : dp_has (l1.foldl join_dp_router_step
        (switches.foldl join_dp_switch_step
          ((pre ++ r :: post).foldl join_dp_sb_step []))) k r :=
      foldl_preserve (fun dps => dp_has dps k r) join_dp_router_step
        (fun b a hb => join_dp_router_step_has b a k r hb) l1 _ h1
    have hnd2 : (((l1.foldl join_dp_router_step
        (switches.foldl join_dp_switch_step
          ((pre ++ r :: post).foldl join_dp_sb_step [])))).map
        (fun od => od.key)).Nodup :=
      foldl_preserve (fun dps => (dps.map (fun od => od.key)).Nodup)
        join_dp_router_step (fun b a hb => join_dp_router_step_nodup b a hb)
        l1 _ hnd1
    have h3 := join_dp_router_step_establishes _ rt k r hrtk hren hnd2 h2
    exact foldl_preserve (fun dps => dp_has_nb dps k r) join_dp_router_step
      (fun b a hb => join_dp_router_step_has_nb b a k r hb) l2 _ h3

/-- The three ways one `build_datapaths` step can leave the output and
the key allocator: drop the datapath (`sb_only`), keep it verbatim,
or append it with a freshly allocated southbound row. -/
theorem build_dp_step_shape (st : List OvnDatapathJ × TnlAlloc × Bool)
    (od : OvnDatapathJ) :
    ((build_dp_step st od).1 = st.1 ∧ (build_dp_step st od).2.1 = st.2.1) ∨
    ((build_dp_step st od).1 = st.1 ++ [od] ∧
      (build_dp_step st od).2.1 = st.2.1) ∨
    (od.sb = none ∧ (ovn_datapath_allocate_key st.2.1).1 ≠ 0 ∧
      (build_dp_step st od).1 = st.1 ++
        [{ od with sb := some ⟨od.key, some od.key,
            (ovn_datapath_allocate_key st.2.1).1⟩ }] ∧
      (build_dp_step st od).2.1 = (ovn_datapath_allocate_key st.2.1).2) := by
  unfold build_dp_step
  cases hsb : od.sb with
  | some s0 =>
    dsimp only
    by_cases hfl : (od.nbs || od.nbr) = true
    · rw [if_pos hfl]
      exact Or.inr (Or.inl ⟨rfl, rfl⟩)
    · rw [if_neg hfl]
      exact Or.inl ⟨rfl, rfl⟩
  | none =>
    dsimp only
    by_cases hok : st.2.2 = true
    · rw [if_pos hok]
      by_cases hz : (ovn_datapath_allocate_key st.2.1).1 = 0
      · rw [if_pos hz]
        exact Or.inr (Or.inl ⟨rfl, rfl⟩)
      · rw [if_neg hz]
        exact Or.inr (Or.inr ⟨rfl, hz, rfl, rfl⟩)
    · rw [if_neg hok]
      exact Or.inr (Or.inl ⟨rfl, rfl⟩)

theorem build_dp_step_mono (st : List OvnDatapathJ × TnlAlloc × Bool)
    (od x : OvnDatapathJ) (h : x ∈ st.1) : x ∈ (build_dp_step st od).1 := by
  rcases build_dp_step_shape st od with ⟨h1, _⟩ | ⟨h1, _⟩ | ⟨_, _, h1, _⟩ <;>
    rw [h1]
  · exact h
  · exact List.mem_append_left _ h
  · exact List.mem_append_left _ h

/-- A `both` datapath passes through `build_datapaths`' fold verbatim:
its southbound row (and so its tunnel key) is never touched. -/
theorem build_dp_fold_keeps (l : List OvnDatapathJ)
    (st : List OvnDatapathJ × TnlAlloc × Bool) (od : OvnDatapathJ)
    (s : SbDatapathRow) (hm : od ∈ l) (hsb : od.sb = some s)
    (hfl : (od.nbs || od.nbr) = true) :
    od ∈ (l.foldl build_dp_step st).1 := by
  obtain ⟨l1, l2, rfl⟩ := List.append_of_mem hm
  rw [List.foldl_append, List.foldl_cons]
  refine foldl_preserve (fun st2 => od ∈ st2.1) build_dp_step
    (fun b a hb => build_dp_step_mono b a od hb) l2 _ ?_
  unfold build_dp_step
  rw [hsb]
  dsimp only
  rw [if_pos hfl]
  exact List.mem_append_right _ (List.mem_cons_self _ _)

/-- Invariant of `build_datapaths`' fold: every output datapath whose
southbound row was freshly allocated carries a tunnel key outside the
indexed key set, and the allocator keeps every indexed key in use. -/
theorem build_dp_fold_fresh (keys0 : List Nat) (dps0 : List OvnDatapathJ) :
    ∀ (l : List OvnDatapathJ) (st : List OvnDatapathJ × TnlAlloc × Bool),
      (∀ od2, od2 ∈ l → od2 ∈ dps0) →
      (∀ x, x ∈ keys0 → tnlid_in_use st.2.1.tnlids x = true) →
      (∀ od2, od2 ∈ st.1 → ∀ s, od2.sb = some s →
        od2 ∈ dps0 ∨ s.tunnel_key ∉ keys0) →
      ∀ od2, od2 ∈ (l.foldl build_dp_step st).1 → ∀ s, od2.sb = some s →
        od2 ∈ dps0 ∨ s.tunnel_key ∉ keys0 := by
  intro l
  induction l with
  | nil => intro st _ _ hacc od2 hm s hs; exact hacc od2 hm s hs
  | cons od rest ih =>
    intro st hl hkeys hacc od2 hm s hs
    rw [List.foldl_cons] at hm
    refine ih (build_dp_step st od)
      (fun x hx => hl x (List.mem_cons_of_mem _ hx)) ?_ ?_ od2 hm s hs
    · intro x hx
      rcases build_dp_step_shape st od with ⟨_, h2⟩ | ⟨_, h2⟩ |
        ⟨_, hz, _, h2⟩ <;> rw [h2]
      · exact hkeys x hx
      · exact hkeys x hx
      · obtain ⟨_, hins⟩ :=
          allocate_tnlid_fresh st.2.1 1 ((1 <<< 24) - 1) hz
        have hxm : x ∈ st.2.1.tnlids :=
          List.mem_of_elem_eq_true (hkeys x hx)
        show tnlid_in_use (allocate_tnlid st.2.1 1 ((1 <<< 24) - 1)).2.tnlids
          x = true
        rw [hins]
        exact List.elem_eq_true_of_mem (List.mem_cons_of_mem _ hxm)
    · intro od3 hod3 s3 hs3
      rcases build_dp_step_shape st od with ⟨h1, _⟩ | ⟨h1, _⟩ |
        ⟨_, hz, h1, _⟩ <;> rw [h1] at hod3
      · exact hacc od3 hod3 s3 hs3
      · rcases List.mem_append.mp hod3 with h3 | h3
        · exact hacc od3 h3 s3 hs3
        · rcases List.mem_cons.mp h3 with rfl | h4
          · exact Or.inl (hl od3 (List.mem_cons_self _ _))
          · exact absurd h4 (List.not_mem_nil od3)
      · rcases List.mem_append.mp hod3 with h3 | h3
        · exact hacc od3 h3 s3 hs3
        · rcases List.mem_cons.mp h3 with rfl | h4
          · refine Or.inr ?_
            have hkey : s3.tunnel_key =
                (ovn_datapath_allocate_key st.2.1).1 := by
              have := Option.some.inj hs3
              rw [← this]
            intro hmem
            obtain ⟨hfree, _⟩ :=
              allocate_tnlid_fresh st.2.1 1 ((1 <<< 24) - 1) hz
            have hxm : s3.tunnel_key ∈ st.2.1.tnlids :=
              List.mem_of_elem_eq_true (hkeys _ hmem)
            rw [hkey] at hxm
            have hcontra : tnlid_in_use st.2.1.tnlids
                (allocate_tnlid st.2.1 1 ((1 <<< 24) - 1)).1 = true :=
              List.elem_eq_true_of_mem hxm
            rw [hcontra] at hfree
            exact Bool.noConfusion hfree
          · exact absurd h4 (List.not_mem_nil od3)

/-- Southbound Port_Binding columns build_ports' key handling reads:
the row identity and the tunnel key. -/
structure SbPortRow where
  row : Nat
  tunnel_key : Nat
  deriving DecidableEq, Repr

/-- A joined `struct ovn_port` of one logical datapath: its name,
whether a northbound port (`op->nbsp`/`op->nbrp`) matched, and its
southbound row if any.  `join_logical_ports` starts every southbound
row in `sb_only` and moves it to `both` when a northbound port of the
same name claims it; unmatched northbound ports are created in
`nb_only` with a NULL southbound row. -/
structure OvnPortJ where
  name : String
  nb : Bool
  sb : Option SbPortRow
  deriving DecidableEq, Repr

def ovn_port_allocate_key (a : TnlAlloc) : Nat × TnlAlloc :=
  allocate_tnlid a 1 ((1 <<< 15) - 1)

def port_both_bucket (ports : List OvnPortJ) : List OvnPortJ :=
  ports.filter (fun op => op.sb.isSome && op.nb)

def port_nb_bucket (ports : List OvnPortJ) : List OvnPortJ :=
  ports.filter (fun op => !op.sb.isSome && op.nb)

def port_both_keys (ports : List OvnPortJ) : List Nat :=
  (port_both_bucket ports).filterMap (fun op => op.sb.map
    (fun s => s.tunnel_key))

/-- The `both` loop of `build_ports` per port: `add_tnlid` the existing
key into `od->port_tnlids` and raise `od->port_key_hint`.
(`ovn_port_update_sbrec` rewrites the nb-derived columns - type,
options, datapath, parent_port, tag, mac, external_ids - but never
`tunnel_key`, so the port itself is unchanged here.) -/
def build_ports_both_step (a : TnlAlloc) (op : OvnPortJ) : TnlAlloc :=
  match op.sb with
  | some s =>
    ⟨add_tnlid a.tnlids s.tunnel_key,
      if a.hint < s.tunnel_key then s.tunnel_key else a.hint⟩
  | none => a

/-- The `nb_only` loop of `build_ports` per port: allocate a key; on
failure `continue` (the port keeps its NULL southbound row), otherwise
insert a fresh Port_Binding row with the allocated tunnel key. -/
def port_nb_step (st : List OvnPortJ × TnlAlloc) (op : OvnPortJ) :
    List OvnPortJ × TnlAlloc :=
  let r := ovn_port_allocate_key st.2
  if r.1 = 0 then (st.1 ++ [op], st.2)
  else (st.1 ++ [{ op with sb := some ⟨0, r.1⟩ }], r.2)

/-- `build_ports` for the ports of one logical datapath: the `both`
pass indexes the in-use keys, then the `nb_only` pass assigns fresh
keys; `sb_only` ports are deleted. -/
def build_ports_assign (ports : List OvnPortJ) : List OvnPortJ × TnlAlloc :=
  let a0 := (port_both_bucket ports).foldl build_ports_both_step ⟨[], 0⟩
  let res := (port_nb_bucket ports).foldl port_nb_step ([], a0)
  (port_both_bucket ports ++ res.1, res.2)

theorem build_ports_both_step_mono (a : TnlAlloc) (op : OvnPortJ) (x : Nat)
    (h : tnlid_in_use a.tnlids x = true) :
    tnlid_in_use (build_ports_both_step a op).tnlids x = true := by
  unfold build_ports_both_step
  cases op.sb with
  | none => exact h
  | some s =>
    dsimp only [add_tnlid]
    exact List.elem_eq_true_of_mem
      (List.mem_cons_of_mem _ (List.mem_of_elem_eq_true h))

/-- After the `both` pass every existing tunnel key is recorded as in
use. -/
theorem port_both_fold_indexed :
    ∀ (l : List OvnPortJ) (a : TnlAlloc) (x : Nat),
      (∃ op, op ∈ l ∧ ∃ s, op.sb = some s ∧ s.tunnel_key = x) →
      tnlid_in_use (l.foldl build_ports_both_step a).tnlids x = true := by
  intro l
  induction l with
  | nil =>
    intro a x h
    obtain ⟨op, hm, _⟩ := h
    exact absurd hm (List.not_mem_nil op)
  | cons op rest ih =>
    intro a x h
    rw [List.foldl_cons]
    obtain ⟨op2, hm, s, hs, hk⟩ := h
    rcases List.mem_cons.mp hm with rfl | htl
    · refine foldl_preserve
        (fun a2 => tnlid_in_use a2.tnlids x = true) build_ports_both_step
        (fun b a2 hb => build_ports_both_step_mono b a2 x hb) rest _ ?_
      unfold build_ports_both_step
      rw [hs]
      dsimp only [add_tnlid]
      rw [← hk]
      exact List.elem_eq_true_of_mem (List.mem_cons_self _ _)
    · exact ih _ x ⟨op2, htl, s, hs, hk⟩

theorem port_nb_step_alloc_mono (st : List OvnPortJ × TnlAlloc)
    (op : OvnPortJ) (x : Nat) (h : tnlid_in_use st.2.tnlids x = true) :
    tnlid_in_use (port_nb_step st op).2.tnlids x = true := by
  unfold port_nb_step
  dsimp only
  by_cases hz : (ovn_port_allocate_key st.2).1 = 0
  · rw [if_pos hz]
    exact h
  · rw [if_neg hz]
    obtain ⟨_, hins⟩ := allocate_tnlid_fresh st.2 1 ((1 <<< 15) - 1) hz
    show tnlid_in_use (allocate_tnlid st.2 1 ((1 <<< 15) - 1)).2.tnlids
      x = true
    rw [hins]
    exact List.elem_eq_true_of_mem
      (List.mem_cons_of_mem _ (List.mem_of_elem_eq_true h))

/-- The `nb_only` pass only hands out keys outside the indexed set. -/
theorem port_nb_fold_fresh (keys0 : List Nat) :
    ∀ (l : List OvnPortJ) (st : List OvnPortJ × TnlAlloc),
      (∀ op2, op2 ∈ l → op2.sb = none) →
      (∀ x, x ∈ keys0 → tnlid_in_use st.2.tnlids x = true) →
      (∀ op2, op2 ∈ st.1 → ∀ s, op2.sb = some s →
        s.tunnel_key ∉ keys0) →
      ∀ op2, op2 ∈ (l.foldl port_nb_step st).1 → ∀ s, op2.sb = some s →
        s.tunnel_key ∉ keys0 := by
  intro l
  induction l with
  | nil => intro st _ _ hacc op2 hm s hs; exact hacc op2 hm s hs
  | cons op rest ih =>
    intro st hl hkeys hacc op2 hm s hs
    rw [List.foldl_cons] at hm
    refine ih (port_nb_step st op)
      (fun x hx => hl x (List.mem_cons_of_mem _ hx))
      (fun x hx => port_nb_step_alloc_mono st op x (hkeys x hx))
      ?_ op2 hm s hs
    intro op3 hop3 s3 hs3
    unfold port_nb_step at hop3
    dsimp only at hop3
    by_cases hz : (ovn_port_allocate_key st.2).1 = 0
    · rw [if_pos hz] at hop3
      rcases List.mem_append.mp hop3 with h3 | h3
      · exact hacc op3 h3 s3 hs3
      · rcases List.mem_cons.mp h3 with rfl | h4
        · rw [hl op3 (List.mem_cons_self _ _)] at hs3
          exact Option.noConfusion hs3
        · exact absurd h4 (List.not_mem_nil op3)
    · rw [if_neg hz] at hop3
      rcases List.mem_append.mp hop3 with h3 | h3
      · exact hacc op3 h3 s3 hs3
      · rcases List.mem_cons.mp h3 with rfl | h4
        · have hkey : s3.tunnel_key = (ovn_port_allocate_key st.2).1 := by
            have := Option.some.inj hs3
            rw [← this]
          intro hmem
          obtain ⟨hfree, _⟩ :=
            allocate_tnlid_fresh st.2 1 ((1 <<< 15) - 1) hz
          have hxm : s3.tunnel_key ∈ st.2.tnlids :=
            List.mem_of_elem_eq_true (hkeys _ hmem)
          rw [hkey] at hxm
          have hcontra : tnlid_in_use st.2.tnlids
              (allocate_tnlid st.2 1 ((1 <<< 15) - 1)).1 = true :=
            List.elem_eq_true_of_mem hxm
          rw [hcontra] at hfree
          exact Bool.noConfusion hfree
        · exact absurd h4 (List.not_mem_nil op3)

theorem port_both_keys_indexed (ports : List OvnPortJ) (x : Nat)
    (hx : x ∈ port_both_keys ports) :
    tnlid_in_use ((port_both_bucket ports).foldl build_ports_both_step
      ⟨[], 0⟩).tnlids x = true := by
  obtain ⟨op, hop, hmap⟩ := List.mem_filterMap.mp hx
  cases hsb : op.sb with
  | none =>
    rw [hsb] at hmap
    exact Option.noConfusion hmap
  | some s =>
    rw [hsb] at hmap
    exact port_both_fold_indexed (port_both_bucket ports) ⟨[], 0⟩ x
      ⟨op, hop, s, hsb, Option.some.inj hmap⟩

/-- C7: a datapath or port in the `both` bucket of the join keeps its
southbound row - and so its tunnel key - verbatim across the pass; the
existing keys are only indexed as in use for the allocator, and every
key assigned during the pass goes to an `nb_only` row and differs from
every `both` key. -/
theorem build_keeps_both_tunnel_keys
    (sb_rows : List SbDatapathRow) (switches : List NbSwitchRow)
    (routers : List NbRouterRow) (ports : List OvnPortJ) :
    (∀ od s, od ∈ join_datapaths sb_rows switches routers →
      od.sb = some s → (od.nbs || od.nbr) = true →
      od ∈ build_datapaths sb_rows switches routers) ∧
    (∀ od s, od ∈ build_datapaths sb_rows switches routers →
      od.sb = some s →
      od ∈ join_datapaths sb_rows switches routers ∨
        s.tunnel_key ∉
          dp_both_keys (join_datapaths sb_rows switches routers)) ∧
    (∀ op, op ∈ port_both_bucket ports →
      op ∈ (build_ports_assign ports).1) ∧
    (∀ op s, op ∈ (build_ports_assign ports).1 → op.sb = some s →
      op ∈ ports ∨ s.tunnel_key ∉ port_both_keys ports) ∧
    (∀ x, x ∈ port_both_keys ports →
      tnlid_in_use (build_ports_assign ports).2.tnlids x = true) := by
  refine ⟨?_, ?_, ?_, ?_, ?_⟩
  · intro od s hm hs hfl
    exact build_dp_fold_keeps (join_datapaths sb_rows switches routers)
      ([], ⟨dp_both_keys (join_datapaths sb_rows switches routers), 0⟩, true)
      od s hm hs hfl
  · intro od s hm hs
    refine build_dp_fold_fresh
      (dp_both_keys (join_datapaths sb_rows switches routers))
      (join_datapaths sb_rows switches routers)
      (join_datapaths sb_rows switches routers)
      ([], ⟨dp_both_keys (join_datapaths sb_rows switches routers), 0⟩, true)
      (fun _ hx => hx)
      (fun x hx => List.elem_eq_true_of_mem hx)
      (fun od2 h2 => absurd h2 (List.not_mem_nil od2))
      od hm s hs
  · intro op hop
    exact List.mem_append_left _ hop
  · intro op s hm hs
    have hm2 : op ∈ port_both_bucket ports ++
        ((port_nb_bucket ports).foldl port_nb_step
          ([], (port_both_bucket ports).foldl build_ports_both_step
            ⟨[], 0⟩)).1 := hm
    rcases List.mem_append.mp hm2 with h1 | h1
    · exact Or.inl (List.mem_of_mem_filter h1)
    · refine Or.inr (port_nb_fold_fresh (port_both_keys ports)
        (port_nb_bucket ports)
        ([], (port_both_bucket ports).foldl build_ports_both_step ⟨[], 0⟩)
        ?_ (fun x hx => port_both_keys_indexed ports x hx)
        (fun op2 h2 => absurd h2 (List.not_mem_nil op2))
        op h1 s hs)
      intro op2 h2
      have hp := List.of_mem_filter h2
      cases hsb2 : op2.sb with
      | none => rfl
      | some s2 =>
        rw [hsb2] at hp
        simp at hp
  · intro x hx
    show tnlid_in_use (((port_nb_bucket ports).foldl port_nb_step
      ([], (port_both_bucket ports).foldl build_ports_both_step
        ⟨[], 0⟩)).2).tnlids x = true
    refine foldl_preserve
      (fun st => tnlid_in_use st.2.tnlids x = true) port_nb_step
      (fun b a2 hb => port_nb_step_alloc_mono b a2 x hb)
      (port_nb_bucket ports) _ ?_
    exact port_both_keys_indexed ports x hx

/-- Witness: C7's stability theorem on one matched datapath and one
two-port switch where the fresh port key 4 avoids the in-use key 3. -/
theorem build_keeps_both_tunnel_keys_witness :
    ((⟨7, true, false, some ⟨1, some 7, 42⟩⟩ : OvnDatapathJ) ∈
      build_datapaths [⟨1, some 7, 42⟩] [⟨7⟩] []) ∧
    ((⟨"b", true, some ⟨0, 4⟩⟩ : OvnPortJ) ∈
        [(⟨"a", true, some ⟨5, 3⟩⟩ : OvnPortJ), ⟨"b", true, none⟩] ∨
      (4 : Nat) ∉ port_both_keys
        [⟨"a", true, some ⟨5, 3⟩⟩, ⟨"b", true, none⟩]) ∧
    tnlid_in_use (build_ports_assign
      [⟨"a", true, some ⟨5, 3⟩⟩, ⟨"b", true, none⟩]).2.tnlids 3 = true :=
  ⟨(build_keeps_both_tunnel_keys [⟨1, some 7, 42⟩] [⟨7⟩] [] []).1
      ⟨7, true, false, some ⟨1, some 7, 42⟩⟩ ⟨1, some 7, 42⟩
      (by decide) (by decide) (by decide),
    (build_keeps_both_tunnel_keys [] [] []
        [⟨"a", true, some ⟨5, 3⟩⟩, ⟨"b", true, none⟩]).2.2.2.1
      ⟨"b", true, some ⟨0, 4⟩⟩ ⟨0, 4⟩ (by decide) (by decide),
    (build_keeps_both_tunnel_keys [] [] []
        [⟨"a", true, some ⟨5, 3⟩⟩, ⟨"b", true, none⟩]).2.2.2.2
      3 (by decide)⟩

end OvnNorthd

